import Mathlib

/-!
# Verification of the API test platform's execution engine

Shallow embedding of the core test-execution engine of
`apps/core/executor.py`, `apps/core/db_utils.py`, `apps/core/views.py`
and `apps/core/locust_runner.py`, together with proofs settling the
frozen specification claims about it.

Python values flowing through the engine (parsed JSON blobs, runtime
variables, request bodies) are modelled by the inductive type `PyVal`;
strings are Lean `String`s, integers `Int`; external effects (HTTP,
MySQL, Redis, the DeepDiff library, the AES block cipher) are passed in
explicitly as oracle data / function parameters.
-/

/-- A Python value as it occurs in the engine's JSON-blob world. -/
inductive PyVal where
  | str (s : String)
  | num (n : Int)
  | bool (b : Bool)
  | none
  | list (xs : List PyVal)
  | dict (kvs : List (String × PyVal))

namespace PyVal

mutual

/-- Python `repr` of a value (single-quoted strings, `True`/`False`/`None`);
string escaping inside containers is not reproduced, the engine never
relies on it. -/
def pyRepr : PyVal → String
  | .str s => "'" ++ s ++ "'"
  | .num n => toString n
  | .bool b => if b then "True" else "False"
  | .none => "None"
  | .list xs => "[" ++ reprList xs ++ "]"
  | .dict kvs => "\x7b" ++ reprPairs kvs ++ "\x7d"

/-- Comma-joined `repr`s of list elements. -/
def reprList : List PyVal → String
  | [] => ""
  | [x] => pyRepr x
  | x :: y :: xs => pyRepr x ++ ", " ++ reprList (y :: xs)

/-- Comma-joined `'key': repr` items of a dict. -/
def reprPairs : List (String × PyVal) → String
  | [] => ""
  | [(k, v)] => "'" ++ k ++ "': " ++ pyRepr v
  | (k, v) :: p :: xs => "'" ++ k ++ "': " ++ pyRepr v ++ ", " ++ reprPairs (p :: xs)

end

/-- Python `str()` of a value. -/
def pyStr : PyVal → String
  | .str s => s
  | v => pyRepr v

/-- Python truthiness: `bool(v)`. -/
def pyTruthy : PyVal → Bool
  | .str s => s != ""
  | .num n => n != 0
  | .bool b => b
  | .none => false
  | .list xs => !xs.isEmpty
  | .dict kvs => !kvs.isEmpty

end PyVal

/-- `v in ('', None)` — the blank-parameter test of the kwargs builders.
Python compares with `==`, which against `''` and `None` holds exactly
for the values matched here. -/
def isBlankParam : PyVal → Bool
  | .str s => s == ""
  | .none => true
  | _ => false

/-- `body in ({}, '', None, [])` — the `body_is_empty` test of the kwargs
builders. Python compares with `==`, which against these four empty
values holds exactly for the values matched here. -/
def bodyIsEmpty : PyVal → Bool
  | .dict [] => true
  | .str s => s == ""
  | .none => true
  | .list [] => true
  | _ => false

/-- Lookup in an association list (Python `dict.get` / `in` on a dict
snapshot whose keys are unique). -/
def alookup (k : String) : List (String × α) → Option α
  | [] => .none
  | (k', v) :: rest => if k' = k then some v else alookup k rest

/-- Python `dict[name] = value` on an association-list dict snapshot:
replace the binding if present, else append. -/
def dictSet (k : String) (v : α) : List (String × α) → List (String × α)
  | [] => [(k, v)]
  | (k', w) :: rest => if k' = k then (k, v) :: rest else (k', w) :: dictSet k v rest

/-! ## Variable substitution (`_replace_vars`, executor.py:72-77)

`re.sub(r'\{\{([^}]+)\}\}', replacer, text)` scans left to right; at a
position starting with `{{` it takes the maximal nonempty run of
non-`}` characters and requires it to be followed by `}}`; the matched
name is stripped of surrounding whitespace and looked up, a hit being
replaced by the `str` of the value and a miss keeping the whole match
verbatim; on failure to match, scanning moves one character forward. -/

/-- Split a char list at the first `'}'`: returns the maximal `'}'`-free
prefix and the remainder (which is empty or starts with `'}'`). -/
def splitAtRBrace : List Char → List Char × List Char
  | [] => ([], [])
  | c :: cs =>
    if c = '}' then ([], c :: cs)
    else
      let p := splitAtRBrace cs
      (c :: p.1, p.2)

/-- Match `[^}]+\}\}` at the head of `l`: the captured group and the rest. -/
def scanName (l : List Char) : Option (List Char × List Char) :=
  match splitAtRBrace l with
  | ([], _) => none
  | (run, '}' :: '}' :: rest) => some (run, rest)
  | (_, _) => none

theorem splitAtRBrace_append (l : List Char) :
    (splitAtRBrace l).1 ++ (splitAtRBrace l).2 = l := by
  induction l with
  | nil => simp [splitAtRBrace]
  | cons c cs ih =>
    by_cases h : c = '}' <;> simp [splitAtRBrace, h, ih]

theorem splitAtRBrace_fst_no_rbrace (l : List Char) :
    ∀ c ∈ (splitAtRBrace l).1, c ≠ '}' := by
  induction l with
  | nil => simp [splitAtRBrace]
  | cons c cs ih =>
    by_cases h : c = '}' <;> simp [splitAtRBrace, h]
    exact ih


theorem splitAtRBrace_of_no_rbrace (l : List Char) (h : ∀ c ∈ l, c ≠ '}') :
    splitAtRBrace l = (l, []) := by
  induction l with
  | nil => simp [splitAtRBrace]
  | cons c cs ih =>
    have hc : c ≠ '}' := h c (by simp)
    simp [splitAtRBrace, hc, ih (fun x hx => h x (by simp [hx]))]

/-- `splitAtRBrace` on a `'}'`-free prefix glued to a remainder starting
with `'}'` recovers exactly that split. -/
theorem splitAtRBrace_glue (run rest : List Char) (h : ∀ c ∈ run, c ≠ '}') :
    splitAtRBrace (run ++ '}' :: rest) = (run, '}' :: rest) := by
  induction run with
  | nil => simp [splitAtRBrace]
  | cons c cs ih =>
    have hc : c ≠ '}' := h c (by simp)
    simp [splitAtRBrace, hc, ih (fun x hx => h x (by simp [hx]))]

theorem scanName_some (l name rest : List Char) (h : scanName l = some (name, rest)) :
    l = name ++ '}' :: '}' :: rest ∧ name ≠ [] ∧ ∀ c ∈ name, c ≠ '}' := by
  have happ := splitAtRBrace_append l
  have hno := splitAtRBrace_fst_no_rbrace l
  unfold scanName at h
  split at h
  · exact Option.noConfusion h
  · rename_i run rest' hrun heq
    simp only [Option.some_inj, Prod.mk.injEq] at h
    obtain ⟨h1, h2⟩ := h
    subst h1; subst h2
    rw [heq] at happ hno
    simp only at happ hno
    exact ⟨happ.symm, fun hnil => hrun hnil, hno⟩
  · exact Option.noConfusion h

theorem scanName_glue (name rest : List Char) (hne : name ≠ [])
    (h : ∀ c ∈ name, c ≠ '}') :
    scanName (name ++ '}' :: '}' :: rest) = some (name, rest) := by
  unfold scanName
  rw [splitAtRBrace_glue name ('}' :: rest) h]
  match name, hne with
  | c :: cs, _ => rfl

theorem scanName_some_length (l name rest : List Char)
    (h : scanName l = some (name, rest)) : rest.length < l.length := by
  obtain ⟨h1, h2, _⟩ := scanName_some l name rest h
  subst h1
  simp
  omega

/-- Python `str.strip()`: drop leading and trailing whitespace. -/
def stripWs (s : String) : String :=
  ⟨(s.data.dropWhile Char.isWhitespace).reverse.dropWhile Char.isWhitespace |>.reverse⟩

/-- The `re.sub` scan of `_replace_vars`, parameterised by the lookup
`f name = str(variables[name])` (`none` when the name is absent, in which
case the whole match is kept verbatim). -/
def substChars (f : String → Option String) (l : List Char) : List Char :=
  match l with
  | [] => []
  | c :: cs =>
    if c = '{' ∧ cs.head? = some '{' then
      match hs : scanName cs.tail with
      | some (name, r3) =>
          (match f (stripWs (String.mk name)) with
           | some v => v.data
           | .none => '{' :: '{' :: (name ++ ['}', '}'])) ++ substChars f r3
      | .none => c :: substChars f cs
    else c :: substChars f cs
termination_by l.length
decreasing_by
  · rename_i hpair
    obtain ⟨h1, h2⟩ := hpair
    have := scanName_some_length cs.tail name r3 hs
    cases cs with
    | nil => simp at h2
    | cons c2 cs2 => simp at this ⊢; omega
  · simp
  · simp

/-- `_replace_vars(text, variables)` (executor.py:72-77). The values of
the variable dict are arbitrary Python values, converted by `str` in the
replacer; `if not text: return text` is the identity on the empty
string, which the scan also maps to itself. -/
def replaceVars (text : String) (vs : List (String × PyVal)) : String :=
  ⟨substChars (fun n => (alookup n vs).map PyVal.pyStr) text.data⟩

/-- `replace_vars_in_sql` (executor.py:102-103). -/
def replace_vars_in_sql (sql : String) (vs : List (String × PyVal)) : String :=
  replaceVars sql vs

theorem substChars_nil (f : String → Option String) : substChars f [] = [] := by
  rw [substChars]

/-- Scanning emits the head character whenever no `{{` opens here. -/
theorem substChars_not_open (f : String → Option String) (c : Char) (cs : List Char)
    (h : ¬(c = '{' ∧ cs.head? = some '{')) :
    substChars f (c :: cs) = c :: substChars f cs := by
  rw [substChars]
  simp only [h, if_false]

/-- Scanning at `{{` whose tail has no full match moves one character on. -/
theorem substChars_open_none (f : String → Option String) (cs2 : List Char)
    (h : scanName cs2 = none) :
    substChars f ('{' :: '{' :: cs2) = '{' :: substChars f ('{' :: cs2) := by
  rw [substChars]
  rw [if_pos (by simp)]
  split
  · rename_i name r3 heq
    simp only [List.tail_cons] at heq
    rw [heq] at h
    exact Option.noConfusion h
  · rfl

/-- Scanning at a full `{{name}}` match replaces or keeps it and resumes
after the match. -/
theorem substChars_open_some (f : String → Option String) (cs2 name r3 : List Char)
    (h : scanName cs2 = some (name, r3)) :
    substChars f ('{' :: '{' :: cs2) =
      (match f (stripWs (String.mk name)) with
       | some v => v.data
       | .none => '{' :: '{' :: (name ++ ['}', '}'])) ++ substChars f r3 := by
  rw [substChars]
  rw [if_pos (by simp)]
  split
  · rename_i name' r3' heq
    simp only [List.tail_cons] at heq
    rw [heq] at h
    simp only [Option.some_inj, Prod.mk.injEq] at h
    obtain ⟨h1, h2⟩ := h
    subst h1; subst h2
    rfl
  · rename_i heq
    simp only [List.tail_cons] at heq
    rw [heq] at h
    exact Option.noConfusion h

/-! ## Recursive substitution over parsed blobs
(`replace_vars_in_dict`, executor.py:80-99) -/

mutual

/-- `replace_vars_in_dict(data, variables)` (executor.py:80-99): a string is
substituted; a non-dict is returned unchanged; in a dict, string values
are substituted, dict values are recursed into, and list values have
exactly their string elements substituted. `rvidPairs` is the dict loop;
the source's recursive call on a dict value is inlined as the loop on
its pairs, which is what the call evaluates to. -/
def replace_vars_in_dict (vs : List (String × PyVal)) : PyVal → PyVal
  | .str s => .str (replaceVars s vs)
  | .dict kvs => .dict (rvidPairs vs kvs)
  | other => other

/-- The `for k, v in data.items()` loop of `replace_vars_in_dict`. -/
def rvidPairs (vs : List (String × PyVal)) : List (String × PyVal) → List (String × PyVal)
  | [] => []
  | (k, v) :: rest => (k, rvidVal vs v) :: rvidPairs vs rest

/-- The `if`/`elif` chain on one dict value (executor.py:91-98): strings
are substituted, dicts are recursed into, lists have their string
elements substituted, everything else is kept. -/
def rvidVal (vs : List (String × PyVal)) : PyVal → PyVal
  | .str s => .str (replaceVars s vs)
  | .dict d => .dict (rvidPairs vs d)
  | .list xs => .list (xs.map fun i =>
      match i with
      | .str s => .str (replaceVars s vs)
      | other => other)
  | other => other

end

mutual

/-- Follows the spec's words (§4.A): `substitute_deep(x, vars)` applies
`substitute` to strings inside arbitrarily nested maps and lists. Stated
for comparison with `replace_vars_in_dict`, the code's function. -/
def substituteDeep (vs : List (String × PyVal)) : PyVal → PyVal
  | .str s => .str (replaceVars s vs)
  | .list xs => .list (substituteDeepList vs xs)
  | .dict kvs => .dict (substituteDeepPairs vs kvs)
  | other => other

/-- Elementwise `substituteDeep` over a list. -/
def substituteDeepList (vs : List (String × PyVal)) : List PyVal → List PyVal
  | [] => []
  | x :: xs => substituteDeep vs x :: substituteDeepList vs xs

/-- Valuewise `substituteDeep` over a map's pairs. -/
def substituteDeepPairs (vs : List (String × PyVal)) :
    List (String × PyVal) → List (String × PyVal)
  | [] => []
  | (k, v) :: rest => (k, substituteDeep vs v) :: substituteDeepPairs vs rest

end

/-! ## JSON-path extraction (`extract_value`, executor.py:245-256) -/

/-- `re.split(r'[.\[\]]', path)`: split on `.`, `[`, `]`, keeping empty
segments (which the extraction loop then skips). -/
def splitPathSegs (l : List Char) : List (List Char) :=
  l.foldr
    (fun c acc =>
      if c = '.' ∨ c = '[' ∨ c = ']' then [] :: acc
      else
        match acc with
        | a :: as => (c :: a) :: as
        | [] => [[c]])
    [[]]

/-- Python `int(s)` on the common decimal forms: optional sign then
digits; anything else raises, which `extract_value` turns into `None`. -/
def parseIntStr (s : String) : Option Int :=
  match s.data with
  | [] => .none
  | '-' :: ds =>
      if ds ≠ [] ∧ ds.all Char.isDigit then
        some (-(String.toNat! ⟨ds⟩ : Int))
      else .none
  | ds =>
      if ds.all Char.isDigit then some (String.toNat! ⟨ds⟩ : Int) else .none

/-- Python sequence indexing `xs[i]` with negative indices counting from
the end; out of range raises (here `none`). -/
def pyIndex (xs : List α) (i : Int) : Option α :=
  if 0 ≤ i then xs[i.toNat]?
  else if (-i).toNat ≤ xs.length then xs[(xs.length - (-i).toNat)]?
  else .none

/-- The `for p in parts` loop of `extract_value`: walk one segment. -/
def extractLoop : PyVal → List String → PyVal
  | cur, [] => cur
  | cur, p :: rest =>
    if p = "" then extractLoop cur rest
    else
      match cur with
      | .dict kvs =>
        match alookup p kvs with
        | some v => extractLoop v rest
        | .none => .none
      | .list xs =>
        match parseIntStr p with
        | some i =>
          match pyIndex xs i with
          | some v => extractLoop v rest
          | .none => .none
        | .none => .none
      | .str s =>
        match parseIntStr p with
        | some i =>
          match pyIndex s.data i with
          | some c => extractLoop (.str ⟨[c]⟩) rest
          | .none => .none
        | .none => .none
      | _ => .none

/-- `extract_value(data, path)` (executor.py:245-256). Any exception
(missing key, bad index, non-indexable value) yields Python `None`,
which is also the value of a JSON `null`, so the result is a `PyVal`
with `.none` for both. -/
def extract_value (data : PyVal) (path : String) : PyVal :=
  let p1 := (path.data.dropWhile (· = '$')).dropWhile (· = '.')
  extractLoop data ((splitPathSegs p1).map fun cs => (⟨cs⟩ : String))

/-! ## JSON serialization (`json.dumps(..., ensure_ascii=False)`) -/

/-- JSON string escaping (quote, backslash and the common controls; other
characters pass through as `ensure_ascii=False` leaves them). -/
def jsonEscape (s : String) : String :=
  ⟨s.data.foldr
    (fun c acc =>
      if c = '"' then '\\' :: '"' :: acc
      else if c = '\\' then '\\' :: '\\' :: acc
      else if c = '\n' then '\\' :: 'n' :: acc
      else if c = '\t' then '\\' :: 't' :: acc
      else if c = '\r' then '\\' :: 'r' :: acc
      else c :: acc)
    []⟩

mutual

/-- `json.dumps(v, ensure_ascii=False)` with the default separators. -/
def jsonDumps : PyVal → String
  | .str s => "\"" ++ jsonEscape s ++ "\""
  | .num n => toString n
  | .bool b => if b then "true" else "false"
  | .none => "null"
  | .list xs => "[" ++ jsonDumpsList xs ++ "]"
  | .dict kvs => "\x7b" ++ jsonDumpsPairs kvs ++ "\x7d"

/-- Comma-joined serializations of list elements. -/
def jsonDumpsList : List PyVal → String
  | [] => ""
  | [x] => jsonDumps x
  | x :: y :: xs => jsonDumps x ++ ", " ++ jsonDumpsList (y :: xs)

/-- Comma-joined `"key": value` serializations of dict pairs. -/
def jsonDumpsPairs : List (String × PyVal) → String
  | [] => ""
  | [(k, v)] => "\"" ++ jsonEscape k ++ "\": " ++ jsonDumps v
  | (k, v) :: p :: xs =>
      "\"" ++ jsonEscape k ++ "\": " ++ jsonDumps v ++ ", " ++ jsonDumpsPairs (p :: xs)

end

/-- Python `needle in hay` on strings: substring test. -/
def strHasSub (hay needle : String) : Bool :=
  decide (needle.data <:+: hay.data)

/-- Python `c in s` for a single character. -/
def strHasChar (s : String) (c : Char) : Bool :=
  decide (c ∈ s.data)

/-! ## HTTP assertions (`run_assertions`, executor.py:261-302) -/

/-- One HTTP assertion rule: `rule.get('type','')`, `rule.get('expected')`
(Python `None` when missing), `rule.get('path','')`. -/
structure ARule where
  atype : String
  expected : PyVal
  path : String

/-- One evaluated HTTP assertion record. -/
structure AResult where
  rule : ARule
  expected : PyVal
  actual : PyVal
  passed : Bool
  message : String

/-- The `not_empty` branch of `run_assertions` (executor.py:286):
`actual is not None and actual != '' and actual != [] and actual != {}`. -/
def httpNotEmptyCheck : PyVal → Bool
  | .none => false
  | .str s => s != ""
  | .list xs => !xs.isEmpty
  | .dict kvs => !kvs.isEmpty
  | _ => true

/-- `run_assertions(assertions, response_status, response_data)`
(executor.py:261-302). The `regex` branch calls the `re` library, passed
in as `reSearch pattern text`; `none` models `re.search` raising, which
the code turns into `passed = False`. -/
def run_assertions (reSearch : String → String → Option Bool)
    (assertions : List ARule) (response_status : Int) (response_data : PyVal) :
    List AResult :=
  assertions.map fun rule =>
    let expected := rule.expected
    let base : AResult := ⟨rule, expected, .none, false, ""⟩
    if rule.atype = "status_code" then
      let actual : PyVal := .num response_status
      let ok := PyVal.pyStr actual == PyVal.pyStr expected
      { base with
        actual := actual
        passed := ok
        message := "狀態碼 " ++ PyVal.pyStr actual ++ " " ++
          (if ok then "==" else "!=") ++ " " ++ PyVal.pyStr expected }
    else if rule.atype = "json_path" then
      let actual := extract_value response_data rule.path
      let ok := PyVal.pyStr actual == PyVal.pyStr expected
      { base with
        actual := actual
        passed := ok
        message := "路徑[" ++ rule.path ++ "]=" ++ PyVal.pyStr actual ++ " " ++
          (if ok then "==" else "!=") ++ " " ++ PyVal.pyStr expected }
    else if rule.atype = "contains" then
      let bodyStr :=
        match response_data with
        | .dict _ | .list _ => jsonDumps response_data
        | v => PyVal.pyStr v
      let ok := strHasSub bodyStr (PyVal.pyStr expected)
      { base with
        actual := .str "(響應體)"
        passed := ok
        message := "響應體" ++ (if ok then "包含" else "不包含") ++ " \"" ++
          PyVal.pyStr expected ++ "\"" }
    else if rule.atype = "not_empty" then
      let actual := extract_value response_data rule.path
      let ok := httpNotEmptyCheck actual
      { base with
        actual := actual
        passed := ok
        message := "路徑[" ++ rule.path ++ "] " ++ (if ok then "非空" else "為空") }
    else if rule.atype = "regex" then
      let actual : PyVal :=
        if rule.path ≠ "" then extract_value response_data rule.path
        else .str (PyVal.pyStr response_data)
      let ok := (reSearch (PyVal.pyStr expected) (PyVal.pyStr actual)).getD false
      { base with
        actual := actual
        passed := ok
        message := "正則[" ++ rule.path ++ "]\"" ++ PyVal.pyStr actual ++ "\" " ++
          (if ok then "匹配" else "不匹配") ++ " /" ++ PyVal.pyStr expected ++ "/" }
    else
      base

/-! ## DB assertion operators and `run_db_assertions` (db_utils.py:131-301) -/

/-- Decimal fraction parsing for `_to_num`'s `float(v)` on the string
forms the engine meets: optional sign, digits, optional fraction. -/
def parseDecimal (s : String) : Option Rat :=
  let core : List Char → Option Rat := fun ds =>
    match ds.splitOn '.' with
    | [ip] => if ip ≠ [] ∧ ip.all Char.isDigit then some ((String.toNat! ⟨ip⟩ : Int) : Rat) else .none
    | [ip, fp] =>
      if (ip ≠ [] ∨ fp ≠ []) ∧ ip.all Char.isDigit ∧ fp.all Char.isDigit ∧ fp.length ≤ 40 then
        some (((String.toNat! ⟨ip ++ fp⟩ : Int) : Rat) / ((10 : Rat) ^ fp.length))
      else .none
    | _ => .none
  match s.data with
  | '-' :: ds => (core ds).map (fun q => -q)
  | '+' :: ds => core ds
  | ds => core ds

/-- `_to_num(v)` (db_utils.py:142-146): `float(v)`, any exception giving
`0.0`. Booleans are numeric in Python; `None` and containers raise. -/
def pyToNum : PyVal → Rat
  | .num n => n
  | .bool b => if b then 1 else 0
  | .str s => (parseDecimal s).getD 0
  | _ => 0

/-- `a is not None`. -/
def dbNotNone : PyVal → Bool
  | .none => false
  | _ => true

/-- The `OPERATORS` table of db_utils.py:131-140, with
`OPERATORS.get(operator, OPERATORS['=='])` built in: an unknown operator
name evaluates as `==`. -/
def applyOp (op : String) (a e : PyVal) : Bool :=
  if op = "==" then PyVal.pyStr a == PyVal.pyStr e
  else if op = "!=" then PyVal.pyStr a != PyVal.pyStr e
  else if op = ">" then decide (pyToNum a > pyToNum e)
  else if op = "<" then decide (pyToNum a < pyToNum e)
  else if op = ">=" then decide (pyToNum a ≥ pyToNum e)
  else if op = "<=" then decide (pyToNum a ≤ pyToNum e)
  else if op = "contains" then strHasSub (PyVal.pyStr a) (PyVal.pyStr e)
  else if op = "not_empty" then
    dbNotNone a && PyVal.pyStr a != "" && PyVal.pyStr a != "0"
  else PyVal.pyStr a == PyVal.pyStr e

/-- One field check of a DB assertion rule (new-format entry, or the
old-format rule's own `field`/`operator`/`expected`). -/
structure DbFieldCheck where
  field : String
  operator : String
  expected : PyVal

/-- One DB assertion rule as `run_db_assertions` reads it: `db_id` may be
missing (`none`), `fields` is the new multi-field format (used when it
is a nonempty list), otherwise the old single-field keys apply. -/
structure DbRule where
  db_id : Option Nat
  sql : String
  label : String
  fields : Option (List DbFieldCheck)
  field : String
  operator : String
  expected : PyVal

/-- A fetched row: column name to value, `PyVal.none` for SQL NULL. -/
abbrev DbRow := List (String × PyVal)

/-- The database as the engine sees it: per-`db_id` connection outcome
(`some err` when the config is missing or connecting fails — cached, so
deterministic per id) and per-SQL first-row fetch (`Except.error` when
execution raises). -/
structure DbOracle where
  conn : Nat → Option String
  query : Nat → String → Except String (Option DbRow)

/-- One per-field sub-result: `actual` is `str(actual)` or Python `None`. -/
structure DbSubResult where
  field : String
  actual : Option String
  expected : PyVal
  operator : String
  passed : Bool
  message : String

/-- One per-rule DB assertion result item. -/
structure DbItemResult where
  rule : DbRule
  sql : String
  label : String
  row : Option DbRow
  field_results : List DbSubResult
  passed : Bool
  message : String

/-- Fetch the compared value for one field check (db_utils.py:252-263):
`None` when the query returned no row or the named field is absent; the
first column when no field name is given; SQL NULL is Python `None`. -/
def dbFetchActual (row : Option DbRow) (fname : String) : PyVal :=
  match row with
  | .none => .none
  | some rowd =>
    if fname ≠ "" then (alookup fname rowd).getD .none
    else
      match rowd with
      | [] => .none
      | (_, v) :: _ => v

/-- Evaluate one field check against the fetched row
(db_utils.py:246-280). When the actual value is Python `None` the code's
`(operator == 'not_empty' and False or False)` is `False` for every
operator. -/
def dbFieldResult (row : Option DbRow) (fc : DbFieldCheck) : DbSubResult :=
  let fieldName := stripWs fc.field
  let actualPy := dbFetchActual row fieldName
  let passed := if dbNotNone actualPy then applyOp fc.operator actualPy fc.expected else false
  { field := fieldName
    actual := if dbNotNone actualPy then some (PyVal.pyStr actualPy) else .none
    expected := fc.expected
    operator := fc.operator
    passed := passed
    message := "字段[" ++ (if fieldName ≠ "" then fieldName else "第1列") ++ "]=" ++
      PyVal.pyStr actualPy ++ " " ++ fc.operator ++ " " ++ PyVal.pyStr fc.expected ++
      " → " ++ (if passed then "✓ 通過" else "✗ 失敗") }

/-- Evaluate one DB assertion rule (the loop body of `run_db_assertions`,
db_utils.py:184-292). -/
def dbProcessRule (o : DbOracle) (rule : DbRule) : DbItemResult :=
  let sql := stripWs rule.sql
  let label := if rule.label ≠ "" then rule.label
    else if sql ≠ "" then ⟨sql.data.take 60⟩ else "未命名斷言"
  let fieldChecks :=
    match rule.fields with
    | some (fc :: fcs) => fc :: fcs
    | _ => [⟨rule.field, rule.operator, rule.expected⟩]
  let base : DbItemResult := ⟨rule, sql, label, .none, [], false, ""⟩
  if rule.db_id = .none ∨ rule.db_id = some 0 ∨ sql = "" then
    { base with message := "規則不完整：缺少 db_id 或 sql" }
  else
    let dbId := rule.db_id.getD 0
    match o.conn dbId with
    | some connErr => { base with message := connErr }
    | .none =>
      match o.query dbId sql with
      | .error e => { base with message := "SQL 執行錯誤: " ++ e }
      | .ok row =>
        let subs := fieldChecks.map (dbFieldResult row)
        let ok := !subs.isEmpty && subs.all (·.passed)
        let msg :=
          match subs with
          | [s0] => "[DB] " ++ label ++ " → " ++ s0.message
          | _ =>
            let detail := String.intercalate " | " (subs.map (·.message))
            let overall := if ok then "✓ 全部通過"
              else "✗ " ++ toString (subs.filter (fun s => !s.passed)).length ++ "/" ++
                toString subs.length ++ " 失敗"
            "[DB] " ++ label ++ " → " ++ overall ++ " | " ++ detail
        { base with
          row := row
          field_results := subs
          passed := ok
          message := msg }

/-- `run_db_assertions(rules)` (db_utils.py:149-301). -/
def run_db_assertions (o : DbOracle) (rules : List DbRule) : List DbItemResult :=
  rules.map (dbProcessRule o)

/-! ## Request kwargs building (`_build_request_kwargs`, executor.py:351-448) -/

/-- Python `s.strip('/')`. -/
def stripSlash (s : String) : String :=
  ⟨(s.data.dropWhile (· = '/')).reverse.dropWhile (· = '/') |>.reverse⟩

/-- Python `s.rstrip('/')`. -/
def rstripSlash (s : String) : String :=
  ⟨(s.data.reverse.dropWhile (· = '/')).reverse⟩

/-- The query-parameter dict of the kwargs record (executor.py:369):
`{k: v for k, v in params.items() if k != '_raw' and v not in ('', None)}`. -/
def buildKwargsParams (params : List (String × PyVal)) : List (String × PyVal) :=
  params.filter fun kv => kv.1 ≠ "_raw" && !isBlankParam kv.2

/-- The request URL after `_raw` handling (executor.py:374-381): a
`_raw` entry is stripped of surrounding `/`, then appended as an extra
query string (`?` or `&` by whether the URL already has a query) when it
contains `=`, else as a trailing path segment. -/
def buildKwargsUrl (url : String) (params : List (String × PyVal)) : String :=
  match alookup "_raw" params with
  | .none => url
  | some v =>
    let rawVal := stripSlash (PyVal.pyStr v)
    let sep := if strHasChar url '?' then "&" else "?"
    if strHasChar rawVal '=' then url ++ sep ++ rawVal
    else rstripSlash url ++ "/" ++ rawVal

/-! ## JSON parsing (`json.loads`)

A fueled recursive-descent parser standing in for `json.loads`; `none`
models `json.JSONDecodeError`. Integers, strings, booleans, `null`,
arrays and objects are parsed; non-integer numbers are not represented
in `PyVal` and make the parse fail, a degradation no modelled claim
touches. -/

/-- Skip JSON whitespace. -/
def jpSkipWs (l : List Char) : List Char :=
  l.dropWhile fun c => c = ' ' ∨ c = '\n' ∨ c = '\t' ∨ c = '\r'

/-- Parse a JSON string body (after the opening quote). -/
def jpStrChars (acc : List Char) (l : List Char) : Option (String × List Char) :=
  match l with
  | [] => .none
  | '"' :: rest => some (⟨acc.reverse⟩, rest)
  | '\\' :: e :: rest =>
    if e = '"' ∨ e = '\\' ∨ e = '/' then jpStrChars (e :: acc) rest
    else if e = 'n' then jpStrChars ('\n' :: acc) rest
    else if e = 't' then jpStrChars ('\t' :: acc) rest
    else if e = 'r' then jpStrChars ('\r' :: acc) rest
    else .none
  | c :: rest => jpStrChars (c :: acc) rest
termination_by l.length

/-- Parse a JSON number; only integers land in `PyVal.num`. -/
def jpNum (l : List Char) : Option (PyVal × List Char) :=
  let (neg, l1) := match l with
    | '-' :: r => (true, r)
    | r => (false, r)
  let ds := l1.takeWhile Char.isDigit
  let rest := l1.dropWhile Char.isDigit
  if ds = [] then .none
  else
    match rest with
    | '.' :: _ => .none
    | 'e' :: _ => .none
    | 'E' :: _ => .none
    | _ =>
      let n : Int := (String.toNat! ⟨ds⟩ : Int)
      some (.num (if neg then -n else n), rest)

mutual

/-- Parse one JSON value, returning it with the unconsumed remainder. -/
def jpVal : Nat → List Char → Option (PyVal × List Char)
  | 0, _ => .none
  | Nat.succ fuel, l =>
    match jpSkipWs l with
    | '{' :: rest =>
      (match jpSkipWs rest with
       | '}' :: r2 => some (.dict [], r2)
       | l2 => jpObj fuel l2 [])
    | '[' :: rest =>
      (match jpSkipWs rest with
       | ']' :: r2 => some (.list [], r2)
       | l2 => jpArr fuel l2 [])
    | '"' :: rest => (jpStrChars [] rest).map fun p => (.str p.1, p.2)
    | 't' :: 'r' :: 'u' :: 'e' :: rest => some (.bool true, rest)
    | 'f' :: 'a' :: 'l' :: 's' :: 'e' :: rest => some (.bool false, rest)
    | 'n' :: 'u' :: 'l' :: 'l' :: rest => some (.none, rest)
    | l1 => jpNum l1

/-- Parse the members of a JSON object (after `{`, at a key). -/
def jpObj : Nat → List Char → List (String × PyVal) → Option (PyVal × List Char)
  | 0, _, _ => .none
  | Nat.succ fuel, l, acc =>
    match jpSkipWs l with
    | '"' :: rest =>
      match jpStrChars [] rest with
      | .none => .none
      | some (key, r1) =>
        match jpSkipWs r1 with
        | ':' :: r2 =>
          (match jpVal fuel r2 with
           | .none => .none
           | some (v, r3) =>
             match jpSkipWs r3 with
             | ',' :: r4 => jpObj fuel r4 ((key, v) :: acc)
             | '}' :: r4 => some (.dict ((key, v) :: acc).reverse, r4)
             | _ => .none)
        | _ => .none
    | _ => .none

/-- Parse the elements of a JSON array (after `[`, at a value). -/
def jpArr : Nat → List Char → List PyVal → Option (PyVal × List Char)
  | 0, _, _ => .none
  | Nat.succ fuel, l, acc =>
    match jpVal fuel l with
    | .none => .none
    | some (v, r1) =>
      match jpSkipWs r1 with
      | ',' :: r2 => jpArr fuel r2 (v :: acc)
      | ']' :: r2 => some (.list (v :: acc).reverse, r2)
      | _ => .none

end

/-- `json.loads(s)`: parse a full JSON document, allowing surrounding
whitespace only. -/
def jsonParse (s : String) : Option PyVal :=
  match jpVal (s.data.length + 1) s.data with
  | some (v, rest) => if jpSkipWs rest = [] then some v else .none
  | .none => .none

/-! ## Base64 (`base64.b64encode` / decoding of its output) -/

/-- The base64 alphabet. -/
def b64Alphabet : List Char :=
  "ABCDEFGHIJKLMNOPQRSTUVWXYZabcdefghijklmnopqrstuvwxyz0123456789+/".data

/-- Character for a 6-bit value. -/
def b64EncChar (i : Nat) : Char := b64Alphabet.getD i 'A'

/-- 6-bit value of a base64 character. -/
def b64DecChar (c : Char) : Option Nat := b64Alphabet.indexOf? c

/-- `base64.b64encode` over bytes, producing the character stream. -/
def b64EncodeChars : List Nat → List Char
  | [] => []
  | [a] => [b64EncChar (a / 4), b64EncChar (a % 4 * 16), '=', '=']
  | [a, b] => [b64EncChar (a / 4), b64EncChar (a % 4 * 16 + b / 16), b64EncChar (b % 16 * 4), '=']
  | a :: b :: c :: rest =>
      b64EncChar (a / 4) :: b64EncChar (a % 4 * 16 + b / 16) ::
      b64EncChar (b % 16 * 4 + c / 64) :: b64EncChar (c % 64) :: b64EncodeChars rest

/-- `base64.b64encode(bs).decode('utf-8')`. -/
def b64encode (bs : List Nat) : String := ⟨b64EncodeChars bs⟩

/-- Standard base64 decoding (`base64.b64decode` on well-formed input):
groups of four characters, with `=`-padding only in a final group. -/
def b64DecodeChars : List Char → Option (List Nat)
  | [] => some []
  | c1 :: c2 :: c3 :: c4 :: rest =>
    if c3 = '=' ∧ c4 = '=' ∧ rest = [] then
      match b64DecChar c1, b64DecChar c2 with
      | some w1, some w2 => some [w1 * 4 + w2 / 16]
      | _, _ => .none
    else if c4 = '=' ∧ rest = [] then
      match b64DecChar c1, b64DecChar c2, b64DecChar c3 with
      | some w1, some w2, some w3 => some [w1 * 4 + w2 / 16, w2 % 16 * 16 + w3 / 4]
      | _, _, _ => .none
    else
      match b64DecChar c1, b64DecChar c2, b64DecChar c3, b64DecChar c4 with
      | some w1, some w2, some w3, some w4 =>
        (b64DecodeChars rest).map fun tl =>
          (w1 * 4 + w2 / 16) :: (w2 % 16 * 16 + w3 / 4) :: (w3 % 4 * 64 + w4) :: tl
      | _, _, _, _ => .none
  | _ => .none

/-- `base64.b64decode` on a string. -/
def b64decode (s : String) : Option (List Nat) := b64DecodeChars s.data

/-! ## AES-GCM (`encrypt_gcm`, executor.py:108-134)

The AES block cipher itself lives in the external `Crypto` library; it
enters the model as a function parameter `E key block` expected to map a
16-byte block to a 16-byte block. Everything around it — the key
adjustment, the fixed 12-byte zero IV, CTR keystream, GHASH tag, and
the `iv ‖ ciphertext ‖ tag` base64 framing — is modelled concretely. -/

/-- UTF-8 bytes of a string. -/
def strToBytes (s : String) : List Nat := s.toUTF8.toList.map (·.toNat)

/-- Key adjustment of executor.py:122-128: left-justify with zero bytes
to the next of 16/24/32, truncating longer keys to 32. -/
def gcmAdjustKey (key : List Nat) : List Nat :=
  if key.length ≤ 16 then key ++ List.replicate (16 - key.length) 0
  else if key.length ≤ 24 then key ++ List.replicate (24 - key.length) 0
  else if key.length ≤ 32 then key ++ List.replicate (32 - key.length) 0
  else key.take 32

/-- Big-endian byte encoding of `n` on `k` bytes. -/
def natToBytesBE (k : Nat) (n : Nat) : List Nat :=
  (List.range k).map fun i => n / 2 ^ (8 * (k - 1 - i)) % 256

/-- Big-endian byte decoding. -/
def bytesToNatBE (bs : List Nat) : Nat := bs.foldl (fun acc b => acc * 256 + b) 0

/-- Multiplication in GF(2^128) with the GHASH reduction polynomial. -/
def gf128Mul (x y : Nat) : Nat :=
  ((List.range 128).foldl
    (fun zv i =>
      let z := if x.testBit (127 - i) then zv.1 ^^^ zv.2 else zv.1
      let v := if zv.2.testBit 0
        then (zv.2 >>> 1) ^^^ 0xe1000000000000000000000000000000
        else zv.2 >>> 1
      (z, v))
    (0, y)).1

/-- GHASH over 16-byte blocks (as 128-bit numbers). -/
def ghashBlocks (h : Nat) (blocks : List Nat) : Nat :=
  blocks.foldl (fun y b => gf128Mul (y ^^^ b) h) 0

/-- Zero-pad to a multiple of 16 bytes. -/
def pad16 (bs : List Nat) : List Nat :=
  bs ++ List.replicate ((16 - bs.length % 16) % 16) 0

/-- Split into 16-byte chunks. -/
def chunks16 : List Nat → List (List Nat)
  | [] => []
  | b :: bs => (b :: bs).take 16 :: chunks16 ((b :: bs).drop 16)
termination_by l => l.length
decreasing_by simp; omega

/-- GCM encryption core with a 12-byte zero IV and no associated data:
CTR ciphertext and 16-byte tag. -/
def gcmEncrypt (E : List Nat → List Nat → List Nat) (key plain : List Nat) :
    List Nat × List Nat :=
  let iv : List Nat := List.replicate 12 0
  let nblocks := (plain.length + 15) / 16
  let keystream := (List.range nblocks).bind fun i => E key (iv ++ natToBytesBE 4 (i + 2))
  let ct := List.zipWith (fun p k => p ^^^ k) plain keystream
  let h := bytesToNatBE (E key (List.replicate 16 0))
  let lenBlock := natToBytesBE 8 0 ++ natToBytesBE 8 (ct.length * 8)
  let s := ghashBlocks h ((chunks16 (pad16 ct ++ lenBlock)).map bytesToNatBE)
  let tag := List.zipWith (fun a b => a ^^^ b) (E key (iv ++ natToBytesBE 4 1)) (natToBytesBE 16 s)
  (ct, tag)

/-- `encrypt_gcm` on byte lists: adjust the key, encrypt with the fixed
zero IV, frame as `base64(iv ‖ ciphertext ‖ tag)` (executor.py:108-134).
The IV is a constant of the definition — no randomness enters. -/
def encrypt_gcm_bytes (E : List Nat → List Nat → List Nat)
    (plainBytes keyBytes : List Nat) : String :=
  let key := gcmAdjustKey keyBytes
  b64encode (List.replicate 12 0 ++
    (gcmEncrypt E key plainBytes).1 ++ (gcmEncrypt E key plainBytes).2)

/-- `encrypt_gcm(ssrc, raw)` (executor.py:108-134). -/
def encrypt_gcm (E : List Nat → List Nat → List Nat) (ssrc raw : String) : String :=
  encrypt_gcm_bytes E (strToBytes ssrc) (strToBytes raw)

/-! ## `encrypt_body` and body-encryption stages (executor.py:137-240, 607-631) -/

/-- The external cryptographic material `encrypt_body` draws on: the AES
block cipher (`Crypto.Cipher.AES`), the MD5 digest (`hashlib`), and the
random IV that `AES.new(key, MODE_CBC)` generates for the CBC branch.
Only CBC consumes the randomness. -/
structure CryptoPrims where
  aesBlock : List Nat → List Nat → List Nat
  md5Hex : List Nat → String
  cbcIv : List Nat

/-- PKCS#7 padding to 16-byte blocks. -/
def pkcs7pad (bs : List Nat) : List Nat :=
  let padLen := 16 - bs.length % 16
  bs ++ List.replicate padLen padLen

/-- CBC chaining over 16-byte blocks. -/
def cbcChain (E : List Nat → List Nat → List Nat) (key : List Nat) :
    List Nat → List (List Nat) → List Nat
  | _, [] => []
  | prev, blk :: blks =>
    let c := E key (List.zipWith (fun a b => a ^^^ b) blk prev)
    c ++ cbcChain E key c blks

/-- `encrypt_body(body, algorithm, key)` (executor.py:137-164): AES-GCM,
BASE64, MD5, AES-CBC (json `{iv, data}` with a fresh random IV), and the
fall-through returning the body unchanged for unknown algorithms. -/
def encrypt_body (P : CryptoPrims) (body algorithm key : String) : String :=
  if algorithm = "AES-GCM" then encrypt_gcm P.aesBlock body key
  else if algorithm = "BASE64" then b64encode (strToBytes body)
  else if algorithm = "MD5" then P.md5Hex (strToBytes body)
  else if algorithm = "AES" then
    let keyAdj := gcmAdjustKey (strToBytes key)
    let ct := cbcChain P.aesBlock keyAdj P.cbcIv (chunks16 (pkcs7pad (strToBytes body)))
    "\x7b\"iv\": \"" ++ b64encode P.cbcIv ++ "\", \"data\": \"" ++ b64encode ct ++ "\"\x7d"
  else body

/-- One field-level encryption rule of `body_enc_rules`. -/
structure BodyEncRule where
  field : String
  ssrc : String
  json_dumps : Bool
  raw : String

/-- `apply_body_enc_rules(body, rules, default_raw, variables)`
(executor.py:167-240): for each rule substitute variables into `ssrc`;
under `json_dumps`, a name bound in the variables or the current body is
serialized, an already-valid JSON string is kept, anything else is
serialized as a JSON string; the AES-GCM ciphertext is written under
`field`. A non-dict body gives a fresh empty dict; incomplete or keyless
rules are skipped. -/
def apply_body_enc_rules (E : List Nat → List Nat → List Nat) (body : PyVal)
    (rules : List BodyEncRule) (defaultRaw : String)
    (vs : List (String × PyVal)) : PyVal :=
  if rules.isEmpty then body
  else
    let result0 : List (String × PyVal) :=
      match body with
      | .dict kvs => kvs
      | _ => []
    .dict (rules.foldl
      (fun acc rule =>
        let field := stripWs rule.field
        let ssrcTpl := stripWs rule.ssrc
        let raw := if stripWs rule.raw ≠ "" then stripWs rule.raw else defaultRaw
        if field = "" ∨ ssrcTpl = "" then acc
        else if raw = "" then acc
        else
          let ssrcStr := replaceVars ssrcTpl vs
          let ssrcStr :=
            if rule.json_dumps then
              let cand : PyVal :=
                match alookup ssrcStr vs with
                | some v => v
                | .none => (alookup ssrcStr acc).getD .none
              if dbNotNone cand then jsonDumps cand
              else
                match jsonParse ssrcStr with
                | some _ => ssrcStr
                | .none => jsonDumps (.str ssrcStr)
            else ssrcStr
          dictSet field (.str (encrypt_gcm E ssrcStr raw)) acc)
      result0)

/-- The serialization `bs = json.dumps(body) if isinstance(body,(dict,list))
else str(body or '')` of executor.py:620. -/
def wholeBodySerialize (body : PyVal) : String :=
  match body with
  | .dict _ | .list _ => jsonDumps body
  | b => if b.pyTruthy then PyVal.pyStr b else ""

/-- The whole-body encryption stage of `execute_api` (executor.py:616-631):
runs only when `encrypted` is set, the key is non-empty and there are no
field-level rules; serializes the body, encrypts it, and either sends the
bare ciphertext (`text`/`data`/`raw`) or wraps it as
`{"encrypted": ciphertext}` forcing `body_type = json`. Returns the new
body, the new body type, and the recorded `encrypted_body`. -/
def wholeBodyEncStage (P : CryptoPrims) (encrypted : Bool) (encKey encAlgo : String)
    (bodyEncRules : List BodyEncRule) (body : PyVal) (bodyType : String) :
    PyVal × String × Option String :=
  if encrypted && encKey ≠ "" && bodyEncRules.isEmpty then
    let bs := wholeBodySerialize body
    let eb := encrypt_body P bs encAlgo encKey
    if bodyType = "text" ∨ bodyType = "data" ∨ bodyType = "raw" then
      (.str eb, bodyType, some eb)
    else
      (.dict [("encrypted", .str eb)], "json", some eb)
  else (body, bodyType, .none)

/-! ## DeepDiff assertions (`run_deepdiff_assertions`, executor.py:307-346) -/

/-- One structural-diff assertion rule. -/
structure DDRule where
  label : String
  expected : PyVal
  ignore_fields : List String
  check_path : String

/-- One structural-diff record. -/
structure DDResult where
  rule : DDRule
  passed : Bool

/-- `run_deepdiff_assertions(rules, response_data)` (executor.py:307-346):
a string `expected` is JSON-parsed when possible; `check_path` selects
the compared subtree; the deep comparison itself is the external
DeepDiff library, passed in as `ddEval rule expected actual`. -/
def run_deepdiff_assertions (ddEval : DDRule → PyVal → PyVal → Bool)
    (rules : List DDRule) (data : PyVal) : List DDResult :=
  rules.map fun rule =>
    let expected :=
      match rule.expected with
      | .str s => (jsonParse s).getD (.str s)
      | v => v
    let actual := if rule.check_path ≠ "" then extract_value data rule.check_path else data
    ⟨rule, ddEval rule expected actual⟩

/-! ## The per-API pipeline (`execute_api`, executor.py:549-752) -/

/-- One pre-request Redis rule. -/
structure RedisRule where
  redis_id : Option Nat
  key : String
  var_name : String
  extract_field : String

/-- Outcome of one Redis fetch: configuration/connection/command error,
missing key, or the decoded string value. -/
inductive RedisFetch where
  | err (msg : String)
  | missing
  | val (raw : String)

/-- One entry of the pre-Redis run log. -/
structure RedisLogEntry where
  key : String
  var_name : String
  success : Bool
  error : Option String
  value : Option String

/-- Outcome of the HTTP dispatch: a response, a timeout of either mode,
or another exception with its message. -/
inductive HttpOut where
  | ok (status : Int) (headers : List (String × String)) (body : String)
  | timeoutSync
  | timeoutAsync
  | exn (msg : String)

/-- A stored API configuration, as `execute_api` reads it (the `get_*`
accessors' parsed values). -/
structure ApiCfg where
  name : String
  url : String
  method : String
  headers : PyVal
  params : PyVal
  body : PyVal
  timeout : Int
  use_async : Bool
  use_session : Bool
  body_type : String
  encrypted : Bool
  encryption_key : String
  encryption_algorithm : String
  body_enc_rules : List BodyEncRule
  extract_vars : List (String × String)
  assertions : List ARule
  deepdiff_rules : List DDRule
  db_rules : List DbRule
  pre_redis_rules : List RedisRule
  pre_sql : String
  pre_sql_db_id : Option Nat
  post_sql : String
  post_sql_db_id : Option Nat

/-- The external world one `execute_api` call interacts with. -/
structure PipelineOracle where
  http : HttpOut
  elapsedMs : Rat
  reSearch : String → String → Option Bool
  ddEval : DDRule → PyVal → PyVal → Bool
  db : DbOracle
  redisFetch : Nat → String → RedisFetch
  sqlRun : Nat → String → String

/-- The dict `execute_api` returns (executor.py:737-752). -/
structure RunResult where
  api_name : String
  url : String
  method : String
  use_async : Bool
  use_session : Bool
  body_type : String
  request_headers : PyVal
  request_params : PyVal
  request_body : PyVal
  encrypted_body : Option String
  enc_applied : List BodyEncRule
  pre_redis_log : List RedisLogEntry
  response_status : Int
  response_headers : List (String × String)
  response_body : String
  response_data : PyVal
  response_time : Rat
  status : String
  error_message : String
  extracted_vars : List (String × PyVal)
  assertion_results : List AResult
  deepdiff_results : List DDResult
  db_assertion_results : List DbItemResult
  pre_sql_result : String
  post_sql_result : String

/-- Python truthiness of an optional numeric id (`None` and `0` falsy). -/
def optIdTruthy : Option Nat → Bool
  | some (Nat.succ _) => true
  | _ => false

/-- The pre-Redis stage (executor.py:556-595): substitute the key
template, fetch, optionally extract a JSON field, inject into the local
snapshot (returned vars) and the runtime store (returned writes). -/
def preRedisStage (o : PipelineOracle) (rules : List RedisRule)
    (vars0 : List (String × PyVal)) :
    List (String × PyVal) × List RedisLogEntry × List (String × PyVal) :=
  rules.foldl
    (fun acc rule =>
      let (vars, log, writes) := acc
      let keyTpl := stripWs rule.key
      let varName := stripWs rule.var_name
      if ¬(optIdTruthy rule.redis_id && keyTpl ≠ "" && varName ≠ "") then acc
      else
        let rid := rule.redis_id.getD 0
        let realKey := replaceVars keyTpl vars
        match o.redisFetch rid realKey with
        | .err m => (vars, log ++ [⟨realKey, varName, false, some m, .none⟩], writes)
        | .missing =>
          (vars, log ++ [⟨realKey, varName, false,
            some ("key [" ++ realKey ++ "] 不存在或已過期"), .none⟩], writes)
        | .val raw =>
          let extractField := stripWs rule.extract_field
          let v :=
            if extractField ≠ "" then
              match jsonParse raw with
              | some (.dict kvs) =>
                match alookup extractField kvs with
                | some x => PyVal.pyStr x
                | .none => raw
              | _ => raw
            else raw
          (dictSet varName (.str v) vars,
           log ++ [⟨realKey, varName, true, .none, some v⟩],
           writes ++ [(varName, PyVal.str v)]))
    (vars0, [], [])

/-- Substitute `{{vars}}` inside one DB assertion rule (the
`_replace_db_rules` closure, executor.py:709-723): SQL, the old-format
`expected`, and every `fields[*].expected`. -/
def dbRuleSubstVars (vs : List (String × PyVal)) (r : DbRule) : DbRule :=
  { r with
    sql := if r.sql ≠ "" then replaceVars r.sql vs else r.sql
    expected := if dbNotNone r.expected
      then .str (replaceVars (PyVal.pyStr r.expected) vs) else r.expected
    fields := r.fields.map (List.map fun fc =>
      { fc with
        expected := if dbNotNone fc.expected
          then .str (replaceVars (PyVal.pyStr fc.expected) vs) else fc.expected }) }

/-- The final-status rule (executor.py:729-735): `error` iff the error
message is non-empty; else, with any assertion set declared, `pass` iff
all sets are green; else `pass` iff the HTTP status is 2xx. -/
def pipelineStatus (errorMessage : String) (declared allOk : Bool)
    (responseStatus : Int) : String :=
  if errorMessage ≠ "" then "error"
  else if declared then
    if allOk then "pass" else "fail"
  else if 200 ≤ responseStatus ∧ responseStatus < 300 then "pass" else "fail"

/-- `execute_api(api_config, extra_vars)` (executor.py:549-752), stage by
stage. `globalsAndRuntime` is `load_global_vars()` (persisted globals
overlaid with the runtime store); the second component of the result is
the list of `set_runtime_var` writes the call performed. -/
def execute_api (P : CryptoPrims) (o : PipelineOracle) (cfg : ApiCfg)
    (globalsAndRuntime : List (String × PyVal))
    (extraVars : List (String × PyVal)) :
    RunResult × List (String × PyVal) :=
  let vars0 := extraVars.foldl (fun acc kv => dictSet kv.1 kv.2 acc) globalsAndRuntime
  let (vars1, preRedisLog, redisWrites) := preRedisStage o cfg.pre_redis_rules vars0
  let url := replaceVars cfg.url vars1
  let headers := replace_vars_in_dict vars1 cfg.headers
  let params := replace_vars_in_dict vars1 cfg.params
  let body0 := replace_vars_in_dict vars1 cfg.body
  let timeout := max (if cfg.timeout = 0 then 30 else cfg.timeout) 1
  let bodyType0 := if cfg.body_type = "" then "json" else cfg.body_type
  let encKey := cfg.encryption_key
  let encAlgo := if cfg.encryption_algorithm = "" then "AES" else cfg.encryption_algorithm
  let (body1, encApplied) :=
    if ¬cfg.body_enc_rules.isEmpty then
      (apply_body_enc_rules P.aesBlock body0 cfg.body_enc_rules encKey vars1,
       cfg.body_enc_rules)
    else (body0, [])
  let (body2, bodyType1, encryptedBody) :=
    wholeBodyEncStage P cfg.encrypted encKey encAlgo cfg.body_enc_rules body1 bodyType0
  let preSqlResult :=
    if cfg.pre_sql ≠ "" ∧ optIdTruthy cfg.pre_sql_db_id then
      o.sqlRun (cfg.pre_sql_db_id.getD 0) (replace_vars_in_sql cfg.pre_sql vars1)
    else ""
  let (responseStatus, responseHeaders, responseBody, responseData, errorMessage) :
      Int × List (String × String) × String × PyVal × String :=
    match o.http with
    | .ok st hd bd => (st, hd, bd, (jsonParse bd).getD (.str bd), "")
    | .timeoutSync => (0, [], "", .none, "同步請求超時 (" ++ toString timeout ++ "s)")
    | .timeoutAsync => (0, [], "", .none, "異步請求超時 (" ++ toString timeout ++ "s)")
    | .exn m => (0, [], "", .none, ⟨m.data.take 400⟩)
  let (extracted, vars2) :=
    if dbNotNone responseData && errorMessage == "" then
      cfg.extract_vars.foldl
        (fun acc rule =>
          let (ex, vars) := acc
          let vn := stripWs rule.1
          let vp := stripWs rule.2
          if vn ≠ "" ∧ vp ≠ "" then
            let val := extract_value responseData vp
            if dbNotNone val then (ex ++ [(vn, val)], dictSet vn val vars) else acc
          else acc)
        ([], vars1)
    else ([], vars1)
  let assertionResults :=
    if ¬cfg.assertions.isEmpty && errorMessage == "" then
      run_assertions o.reSearch cfg.assertions responseStatus responseData
    else []
  let allHttpOk :=
    if ¬cfg.assertions.isEmpty && errorMessage == "" then
      assertionResults.all (·.passed)
    else true
  let ddResults :=
    if ¬cfg.deepdiff_rules.isEmpty && errorMessage == "" then
      run_deepdiff_assertions o.ddEval cfg.deepdiff_rules responseData
    else []
  let allDdOk :=
    if ¬cfg.deepdiff_rules.isEmpty && errorMessage == "" then
      ddResults.all (·.passed)
    else true
  let postSqlResult :=
    if cfg.post_sql ≠ "" ∧ optIdTruthy cfg.post_sql_db_id then
      o.sqlRun (cfg.post_sql_db_id.getD 0) (replace_vars_in_sql cfg.post_sql vars2)
    else ""
  let dbResults :=
    if ¬cfg.db_rules.isEmpty && errorMessage == "" then
      run_db_assertions o.db (cfg.db_rules.map (dbRuleSubstVars vars2))
    else []
  let allDbOk :=
    if ¬cfg.db_rules.isEmpty && errorMessage == "" then
      dbResults.all (·.passed)
    else true
  let status := pipelineStatus errorMessage
    (!cfg.assertions.isEmpty || !cfg.deepdiff_rules.isEmpty || !cfg.db_rules.isEmpty)
    (allHttpOk && allDdOk && allDbOk) responseStatus
  let requestBodyRaw := body1
  (⟨cfg.name, url, cfg.method, cfg.use_async, cfg.use_session, bodyType1,
    headers, params, requestBodyRaw, encryptedBody, encApplied, preRedisLog,
    responseStatus, responseHeaders, responseBody, responseData, o.elapsedMs,
    status, errorMessage, extracted, assertionResults, ddResults, dbResults,
    preSqlResult, postSqlResult⟩,
   redisWrites ++ extracted)

/-! ## Reports and persisted result rows -/

/-- A `TestReport` row as the engine finalizes it. -/
structure Report where
  name : String
  status : String
  total : Int
  passed : Int
  failed : Int
  error : Int

/-- A persisted `TestResult` row (the fields the invariants speak about;
`response_body` is truncated to 10000 characters on persistence). -/
structure TestResultRow where
  api_name : String
  status : String
  response_status : Int
  error_message : String
  response_body : String

/-- Persist one pipeline result as a `TestResult` row
(executor.py:769-786 / views.py:579-597): `response_body[:10000]`. -/
def mkTestResultRow (rd : RunResult) : TestResultRow :=
  ⟨rd.api_name, rd.status, rd.response_status, rd.error_message,
   ⟨rd.response_body.data.take 10000⟩⟩

/-- One step of the batch loop's status counting (executor.py:787-789):
`pass` and `fail` have their own counters, anything else counts as
`error`. -/
def countStep (acc : Int × Int × Int) (s : String) : Int × Int × Int :=
  if s = "pass" then (acc.1 + 1, acc.2.1, acc.2.2)
  else if s = "fail" then (acc.1, acc.2.1 + 1, acc.2.2)
  else (acc.1, acc.2.1, acc.2.2 + 1)

/-- Status counting of the batch loop (executor.py:787-789). -/
def countStatuses (statuses : List String) : Int × Int × Int :=
  statuses.foldl countStep (0, 0, 0)

/-! ## The batch runner (`execute_batch`, executor.py:757-793) -/

/-- `execute_batch(api_ids, report_name)` (executor.py:757-793): reset the
runtime store, fetch the ordered APIs (given here already filtered and
ordered, with the oracle for each execution), return `none` when empty;
create the report with `total = count`, run every API sequentially
threading the runtime-variable writes, persist one row per API, count
statuses, finalize as `completed`. The loop body threads the runtime
store and appends one persisted row per API. -/
def batchStep (P : CryptoPrims) (globalVars : List (String × PyVal))
    (acc : List (String × PyVal) × List TestResultRow)
    (api : ApiCfg × PipelineOracle) :
    List (String × PyVal) × List TestResultRow :=
  let merged := acc.1.foldl (fun g kv => dictSet kv.1 kv.2 g) globalVars
  (acc.1 ++ (execute_api P api.2 api.1 merged []).2,
   acc.2 ++ [mkTestResultRow (execute_api P api.2 api.1 merged []).1])

/-- `execute_batch(api_ids, report_name)` (executor.py:757-793), body as
documented above; `batchStep` is its loop body. -/
def execute_batch (P : CryptoPrims) (globalVars : List (String × PyVal))
    (apis : List (ApiCfg × PipelineOracle)) (reportName : String) :
    Option (Report × List TestResultRow) :=
  if apis.isEmpty then .none
  else
    let n : Int := apis.length
    let rows := (apis.foldl (batchStep P globalVars) ([], [])).2
    let cnt := countStatuses (rows.map (·.status))
    some (⟨reportName, "completed", n, cnt.1, cnt.2.1, cnt.2.2⟩, rows)

/-! ## Single / repeat run (`api_run_single`, views.py:540-637) -/

/-- The effective repeat count (views.py:544):
`max(1, min(int(repeat_count or 1), 100)) if repeat_enabled else 1`. -/
def effRepeatCount (repeatEnabled : Bool) (repeatCount : Int) : Int :=
  if repeatEnabled then max 1 (min (if repeatCount = 0 then 1 else repeatCount) 100)
  else 1

/-- The single/repeat run endpoint (views.py:540-597): run the pipeline
`repeat_count` times serially (runtime writes carrying over), then
persist one report with `total = repeat_count` and one `TestResult` row
per run, statuses counted like the batch loop. -/
def api_run_single (P : CryptoPrims) (cfg : ApiCfg)
    (oracles : Nat → PipelineOracle) (globalVars : List (String × PyVal))
    (extraVars : List (String × PyVal)) (repeatEnabled : Bool)
    (repeatCount : Int) (reportName : String) : Report × List TestResultRow :=
  let rc := (effRepeatCount repeatEnabled repeatCount).toNat
  let step := fun (acc : List (String × PyVal) × List TestResultRow) (i : Nat) =>
    let merged := acc.1.foldl (fun g kv => dictSet kv.1 kv.2 g) globalVars
    (acc.1 ++ (execute_api P (oracles i) cfg merged extraVars).2,
     acc.2 ++ [mkTestResultRow (execute_api P (oracles i) cfg merged extraVars).1])
  let rows := ((List.range rc).foldl step ([], [])).2
  let cnt := countStatuses (rows.map (·.status))
  (⟨reportName, "completed", (rc : Int), cnt.1, cnt.2.1, cnt.2.2⟩, rows)

/-! ## Load-test collection (`collect_locust_result`, locust_runner.py:408-495) -/

/-- One per-endpoint statistics entry of `result.json`; the `Aggregated`
row uses the same shape. -/
structure EndpointStat where
  name : String
  method : String
  num_requests : Int
  num_failures : Int
  avg_ms : Rat

/-- `collect_locust_result` (locust_runner.py:408-495), after a result
file was read: the `Aggregated` row gives `total = num_requests`,
`passed = total - failures`, `failed = failures`, `error = 0`; each
non-aggregated endpoint becomes one `TestResult` row, `pass`/200 when
its failure rate is zero and `fail`/500 otherwise. -/
def collect_locust_result (statsList : List EndpointStat) (reportName : String) :
    Report × List TestResultRow :=
  let endpoints := statsList.filter fun s => s.name ≠ "Aggregated"
  let totalReqs := ((statsList.find? fun s => s.name = "Aggregated").map
    (·.num_requests)).getD 0
  let totalFail := ((statsList.find? fun s => s.name = "Aggregated").map
    (·.num_failures)).getD 0
  let report : Report :=
    ⟨reportName, "completed", totalReqs, totalReqs - totalFail, totalFail, 0⟩
  let rows := endpoints.map fun ep =>
    let errRateZero := ep.num_failures = 0 ∨ ep.num_requests = 0
    ({ api_name := ep.name
       status := if errRateZero then "pass" else "fail"
       response_status := if errRateZero then 200 else 500
       error_message := "失敗率統計"
       response_body := "" } : TestResultRow)
  (report, rows)

/-! ## Stop-on-failure batch (spec §4.I) -/

/-- Modelled from the spec: the `execute_batch(api_ids, report_name,
stop_on_failure=..., task_id=...)` variant that views.py:668-670 calls
(and the `_batch_tasks` registry it imports from the executor) is not
part of src/ — src's executor.py has only the two-argument
`execute_batch`. Per §4.I the runner persists one `TestResult` per
executed API, updates `(passed, failed, error)`, and "if
`stop_on_failure` and the result is not `pass`, break early"; per §8
the finalized report satisfies `passed + failed + error = total =
len(results)` (scenario 5: `total = 2`), so the finalized `total` is
the number of executed APIs. The statuses the pipeline would produce
are given as input; the result is the report plus how many APIs ran.
This function is the loop: consume statuses in order, stopping after
the first non-`pass` when `stop_on_failure` is set. -/
def batchStopTaken (stopOnFailure : Bool) : List String → List String
  | [] => []
  | s :: rest => if stopOnFailure ∧ s ≠ "pass" then [s] else s :: batchStopTaken stopOnFailure rest

/-- Modelled from the spec: finalize the stop-on-failure batch report
(see `batchStopTaken` for the early-break loop). -/
def executeBatchStopSpec (statuses : List String) (stopOnFailure : Bool)
    (reportName : String) : Report × Nat :=
  let executed := batchStopTaken stopOnFailure statuses
  let cnt := countStatuses executed
  (⟨reportName, "completed", (executed.length : Int), cnt.1, cnt.2.1, cnt.2.2⟩,
   executed.length)

/-! # Claims -/

/-- Concrete external crypto material for witnesses and counterexamples:
a degenerate block cipher, an empty digest, no CBC randomness. -/
def testPrims : CryptoPrims :=
  ⟨fun _ _ => List.replicate 16 0, fun _ => "", []⟩

/-- C2: executing the batch `[pass, fail, pass]` with `stop_on_failure`
stops after the failing API: the report has `total = 2`, `passed = 1`,
`failed = 1` (and no errors), and only two of the three APIs ran, so the
third was never executed. (The stop-on-failure batch runner is modelled
from the spec, see `batchStopTaken`.) -/
theorem C2_stop_on_failure_scenario :
    executeBatchStopSpec ["pass", "fail", "pass"] true "批量測試" =
      (⟨"批量測試", "completed", 2, 1, 1, 0⟩, 2) := by
  rfl

/-- A field check whose recorded actual is `None` never passes. -/
theorem dbFieldResult_actual_none (row : Option DbRow) (fc : DbFieldCheck)
    (h : (dbFieldResult row fc).actual = Option.none) :
    (dbFieldResult row fc).passed = false := by
  unfold dbFieldResult at h ⊢
  by_cases hd : dbNotNone (dbFetchActual row (stripWs fc.field)) = true
  · simp [hd] at h
  · simp only [Bool.not_eq_true] at hd
    simp [hd]

/-- C10: in `run_db_assertions` a field check whose fetched actual value
is Python `None` (no row, missing field, or SQL NULL) has `passed =
false` whatever the operator; and an operator name outside the supported
set evaluates as `==`. -/
theorem C10_null_actual_never_passes :
    (∀ (o : DbOracle) (rules : List DbRule) (item : DbItemResult) (sub : DbSubResult),
        item ∈ run_db_assertions o rules → sub ∈ item.field_results →
        sub.actual = Option.none → sub.passed = false) ∧
    (∀ (op : String) (a e : PyVal),
        op ∉ ["==", "!=", ">", "<", ">=", "<=", "contains", "not_empty"] →
        applyOp op a e = applyOp "==" a e) := by
  constructor
  · intro o rules item sub hitem hsub hnone
    simp only [run_db_assertions, List.mem_map] at hitem
    obtain ⟨r, _, hr⟩ := hitem
    subst hr
    by_cases hc : r.db_id = Option.none ∨ r.db_id = some 0 ∨ stripWs r.sql = ""
    · have hfr : (dbProcessRule o r).field_results = [] := by
        simp [dbProcessRule, hc]
      rw [hfr] at hsub
      simp at hsub
    · cases hconn : o.conn (r.db_id.getD 0) with
      | some err =>
        have hfr : (dbProcessRule o r).field_results = [] := by
          simp [dbProcessRule, hc, hconn]
        rw [hfr] at hsub
        simp at hsub
      | none =>
        cases hq : o.query (r.db_id.getD 0) (stripWs r.sql) with
        | error e =>
          have hfr : (dbProcessRule o r).field_results = [] := by
            simp [dbProcessRule, hc, hconn, hq]
          rw [hfr] at hsub
          simp at hsub
        | ok row =>
          have hfr : (dbProcessRule o r).field_results =
              (match r.fields with
               | some (fc :: fcs) => fc :: fcs
               | _ => [⟨r.field, r.operator, r.expected⟩]).map (dbFieldResult row) := by
            simp [dbProcessRule, hc, hconn, hq]
          rw [hfr] at hsub
          simp only [List.mem_map] at hsub
          obtain ⟨fc, _, hfc⟩ := hsub
          subst hfc
          exact dbFieldResult_actual_none row fc hnone
  · intro op a e hop
    simp only [List.mem_cons, List.not_mem_nil, or_false, not_or] at hop
    obtain ⟨h1, h2, h3, h4, h5, h6, h7, h8⟩ := hop
    unfold applyOp
    simp [h1, h2, h3, h4, h5, h6, h7, h8]

/-- C10 witness: the unsupported operator name `"XYZ"` is evaluated as
`==` on concrete values. -/
theorem C10_witness :
    applyOp "XYZ" (.str "5") (.str "5") = applyOp "==" (.str "5") (.str "5") :=
  C10_null_actual_never_passes.2 "XYZ" (.str "5") (.str "5") (by decide)

/-- C6 counterexample: the HTTP `not_empty` assertion *passes* on the
extracted value `"0"` — the claim, which requires `not_empty` to fail on
the string `"0"` in HTTP assertions as well as DB ones, is false for the
HTTP evaluator (executor.py:286 checks `''`/`[]`/`{}`/`None`, not `"0"`). -/
theorem C6_counterexample :
    ((run_assertions (fun _ _ => some false)
        [⟨"not_empty", PyVal.none, "k"⟩] 200
        (.dict [("k", .str "0")])).map (·.passed) = [true]) ∧
    extract_value (.dict [("k", .str "0")]) "k" = .str "0" := by
  constructor
  · rfl
  · rfl

/-- C6 as amended: the DB `not_empty` operator passes exactly on values
that are not `None` with `str` form neither `""` nor `"0"`
(db_utils.py:139); the HTTP `not_empty` assertion passes exactly when
the extracted value is none of `None`, `""`, `[]`, `{}`
(executor.py:283-288) — the string `"0"` fails only the DB variant. -/
theorem C6_not_empty_semantics :
    (∀ a e : PyVal, applyOp "not_empty" a e = true ↔
        (a ≠ .none ∧ PyVal.pyStr a ≠ "" ∧ PyVal.pyStr a ≠ "0")) ∧
    (∀ (re : String → String → Option Bool) (exp : PyVal) (path : String)
        (st : Int) (data : PyVal),
        (run_assertions re [⟨"not_empty", exp, path⟩] st data).map (·.passed) =
          [httpNotEmptyCheck (extract_value data path)]) ∧
    (∀ v : PyVal, httpNotEmptyCheck v = true ↔
        (v ≠ .none ∧ v ≠ .str "" ∧ v ≠ .list [] ∧ v ≠ .dict [])) := by
  refine ⟨?_, ?_, ?_⟩
  · intro a e
    cases a <;> simp [applyOp, dbNotNone, PyVal.pyStr]
  · intro re exp path st data
    simp [run_assertions]
  · intro v
    cases v with
    | str s => simp [httpNotEmptyCheck]
    | list xs => cases xs <;> simp [httpNotEmptyCheck]
    | dict kvs => cases kvs <;> simp [httpNotEmptyCheck]
    | _ => simp [httpNotEmptyCheck]

/-- C7 counterexample: with `encrypted = true`, *no* field-level rules
and an *empty* encryption key, the whole-body encryption stage leaves the
body and body type unchanged and records no ciphertext
(executor.py:619 also requires `enc_key` to be truthy) — the claim,
which requires encryption whenever `encrypted` is set and no field rules
exist, is false for an empty key. -/
theorem C7_counterexample :
    wholeBodyEncStage testPrims true "" "AES-GCM" [] (.dict [("a", .str "1")]) "json" =
      (.dict [("a", .str "1")], "json", Option.none) := by
  rfl

/-- C7 as amended: when `encrypted` is set, the key is **non-empty** and
no field-level rules exist, the serialized body is encrypted — for
`body_type ∈ {text, data, raw}` the body becomes the bare ciphertext
string with the body type unchanged, otherwise the body becomes
`{"encrypted": ciphertext}` with `body_type` forced to `json`; and the
stage is skipped whenever field-level rules exist. -/
theorem C7_whole_body_encryption :
    (∀ (P : CryptoPrims) (encKey algo : String) (body : PyVal) (bt : String),
        encKey ≠ "" →
        ((bt = "text" ∨ bt = "data" ∨ bt = "raw") →
          wholeBodyEncStage P true encKey algo [] body bt =
            (.str (encrypt_body P (wholeBodySerialize body) algo encKey), bt,
             some (encrypt_body P (wholeBodySerialize body) algo encKey))) ∧
        (¬(bt = "text" ∨ bt = "data" ∨ bt = "raw") →
          wholeBodyEncStage P true encKey algo [] body bt =
            (.dict [("encrypted",
               .str (encrypt_body P (wholeBodySerialize body) algo encKey))], "json",
             some (encrypt_body P (wholeBodySerialize body) algo encKey)))) ∧
    (∀ (P : CryptoPrims) (e : Bool) (encKey algo : String) (body : PyVal)
        (bt : String) (r : BodyEncRule) (rs : List BodyEncRule),
        wholeBodyEncStage P e encKey algo (r :: rs) body bt =
          (body, bt, Option.none)) := by
  constructor
  · intro P encKey algo body bt hkey
    constructor
    · intro hbt
      simp [wholeBodyEncStage, hkey, hbt]
    · intro hbt
      simp only [not_or] at hbt
      obtain ⟨h1, h2, h3⟩ := hbt
      simp [wholeBodyEncStage, hkey, h1, h2, h3]
  · intro P e encKey algo body bt r rs
    simp [wholeBodyEncStage]

/-- C7 witness: a concrete `text`-mode whole-body encryption sends the
bare ciphertext with the body type unchanged. -/
theorem C7_witness :
    wholeBodyEncStage testPrims true "k" "BASE64" [] (.str "x") "text" =
      (.str (encrypt_body testPrims (wholeBodySerialize (.str "x")) "BASE64" "k"), "text",
       some (encrypt_body testPrims (wholeBodySerialize (.str "x")) "BASE64" "k")) :=
  (C7_whole_body_encryption.1 testPrims "k" "BASE64" (.str "x") "text"
    (by decide)).1 (Or.inl rfl)

/-- Sum of the three status counters. -/
def sum3 (t : Int × Int × Int) : Int := t.1 + t.2.1 + t.2.2

theorem countStep_sum (acc : Int × Int × Int) (s : String) :
    sum3 (countStep acc s) = sum3 acc + 1 := by
  unfold countStep sum3
  split <;> [skip; split] <;> dsimp only <;> omega

theorem foldl_countStep_sum (l : List String) :
    ∀ acc : Int × Int × Int, sum3 (l.foldl countStep acc) = sum3 acc + l.length := by
  induction l with
  | nil => intro acc; simp
  | cons s rest ih =>
    intro acc
    rw [List.foldl_cons, ih (countStep acc s), countStep_sum acc s]
    simp only [List.length_cons]
    push_cast
    omega

/-- The batch status counters sum to the number of counted statuses. -/
theorem countStatuses_sum (l : List String) :
    (countStatuses l).1 + (countStatuses l).2.1 + (countStatuses l).2.2 =
      (l.length : Int) := by
  have := foldl_countStep_sum l (0, 0, 0)
  simpa [countStatuses, sum3] using this

/-- A fold whose step appends exactly one row grows the row list by the
input length. -/
theorem foldl_snd_length {α γ ρ : Type _} (f : List γ × List ρ → α → List γ × List ρ)
    (hf : ∀ acc x, ((f acc x).2).length = acc.2.length + 1) :
    ∀ (l : List α) (acc : List γ × List ρ),
      ((l.foldl f acc).2).length = acc.2.length + l.length := by
  intro l
  induction l with
  | nil => intro acc; simp
  | cons x rest ih =>
    intro acc
    simp only [List.foldl_cons]
    rw [ih (f acc x), hf acc x]
    simp only [List.length_cons]
    omega

/-- C1 counterexample: a load test whose single endpoint took 100
requests is collected into a report with `total = 100` but only one
owned `TestResult` row (locust_runner.py:472-495 sets `total` to the
aggregated request count and creates one row per endpoint) — the claim
`total = len(results)` fails for load-test collection. -/
theorem C1_counterexample :
    ((collect_locust_result
        [⟨"ep1", "GET", 100, 0, 0⟩, ⟨"Aggregated", "", 100, 0, 0⟩] "壓測").1.total = 100) ∧
    ((collect_locust_result
        [⟨"ep1", "GET", 100, 0, 0⟩, ⟨"Aggregated", "", 100, 0, 0⟩] "壓測").2.length = 1) ∧
    ((100 : Int) ≠ (1 : Int)) :=
  ⟨rfl, rfl, by decide⟩

/-- C1 as amended: every engine-produced report satisfies
`passed + failed + error = total`; for the batch runner, the single/
repeat run and the (spec-modelled) stop-on-failure batch, `total` also
equals the number of owned `TestResult` rows; load-test collection
instead sets `total` to the aggregated request count and owns one row
per (non-aggregated) endpoint. -/
theorem C1_report_count_invariants :
    (∀ (P : CryptoPrims) (g : List (String × PyVal))
        (apis : List (ApiCfg × PipelineOracle)) (rn : String),
        apis ≠ [] →
        ∃ r rows, execute_batch P g apis rn = some (r, rows) ∧
          r.passed + r.failed + r.error = r.total ∧
          r.total = (rows.length : Int) ∧ r.status = "completed") ∧
    (∀ (P : CryptoPrims) (cfg : ApiCfg) (os : Nat → PipelineOracle)
        (g ev : List (String × PyVal)) (re : Bool) (rc : Int) (rn : String),
        ((api_run_single P cfg os g ev re rc rn).1.passed +
         (api_run_single P cfg os g ev re rc rn).1.failed +
         (api_run_single P cfg os g ev re rc rn).1.error =
           (api_run_single P cfg os g ev re rc rn).1.total) ∧
        (api_run_single P cfg os g ev re rc rn).1.total =
          ((api_run_single P cfg os g ev re rc rn).2.length : Int)) ∧
    (∀ (stats : List EndpointStat) (rn : String),
        ((collect_locust_result stats rn).1.passed +
         (collect_locust_result stats rn).1.failed +
         (collect_locust_result stats rn).1.error =
           (collect_locust_result stats rn).1.total) ∧
        (collect_locust_result stats rn).2.length =
          (stats.filter fun s => s.name ≠ "Aggregated").length) ∧
    (∀ (sts : List String) (stop : Bool) (rn : String),
        ((executeBatchStopSpec sts stop rn).1.passed +
         (executeBatchStopSpec sts stop rn).1.failed +
         (executeBatchStopSpec sts stop rn).1.error =
           (executeBatchStopSpec sts stop rn).1.total) ∧
        (executeBatchStopSpec sts stop rn).1.total =
          ((executeBatchStopSpec sts stop rn).2 : Int)) := by
  have hrowlen : ∀ (P : CryptoPrims) (g : List (String × PyVal))
      (apis : List (ApiCfg × PipelineOracle)),
      ((apis.foldl (batchStep P g) ([], [])).2).length = apis.length := by
    intro P g apis
    have := foldl_snd_length (batchStep P g)
      (by intro acc x; simp [batchStep]) apis ([], [])
    simpa using this
  refine ⟨?_, ?_, ?_, ?_⟩
  · intro P g apis rn hne
    have hex : apis.isEmpty = false := by
      cases apis with
      | nil => exact absurd rfl hne
      | cons a l => rfl
    unfold execute_batch
    simp only [hex, Bool.false_eq_true, if_false]
    refine ⟨_, _, rfl, ?_, ?_, rfl⟩
    · show (countStatuses _).1 + (countStatuses _).2.1 + (countStatuses _).2.2 =
        (apis.length : Int)
      rw [countStatuses_sum]
      simp [hrowlen P g apis]
    · show (apis.length : Int) = _
      rw [hrowlen P g apis]
  · intro P cfg os g ev re rc rn
    unfold api_run_single
    have hlen : ((((List.range (effRepeatCount re rc).toNat)).foldl
        (fun acc i =>
          (acc.1 ++ (execute_api P (os i) cfg
              (acc.1.foldl (fun gg kv => dictSet kv.1 kv.2 gg) g) ev).2,
           acc.2 ++ [mkTestResultRow (execute_api P (os i) cfg
              (acc.1.foldl (fun gg kv => dictSet kv.1 kv.2 gg) g) ev).1]))
        ([], [])).2).length = (effRepeatCount re rc).toNat := by
      have := foldl_snd_length
        (fun (acc : List (String × PyVal) × List TestResultRow) (i : Nat) =>
          (acc.1 ++ (execute_api P (os i) cfg
              (acc.1.foldl (fun gg kv => dictSet kv.1 kv.2 gg) g) ev).2,
           acc.2 ++ [mkTestResultRow (execute_api P (os i) cfg
              (acc.1.foldl (fun gg kv => dictSet kv.1 kv.2 gg) g) ev).1]))
        (by intro acc x; simp) (List.range (effRepeatCount re rc).toNat) ([], [])
      simpa using this
    constructor
    · show (countStatuses _).1 + (countStatuses _).2.1 + (countStatuses _).2.2 = _
      rw [countStatuses_sum]
      simp only [List.length_map]
      rw [hlen]
    · show ((effRepeatCount re rc).toNat : Int) = _
      rw [hlen]
  · intro stats rn
    constructor
    · unfold collect_locust_result
      dsimp only
      omega
    · simp [collect_locust_result]
  · intro sts stop rn
    constructor
    · show (countStatuses _).1 + (countStatuses _).2.1 + (countStatuses _).2.2 = _
      rw [countStatuses_sum]
      rfl
    · rfl

/-- C1 witness: a concrete one-API batch produces a report satisfying
the counting invariants. -/
theorem C1_witness :
    ∃ r rows,
      execute_batch testPrims []
        [(⟨"api", "http://h", "GET", .dict [], .dict [], .dict [], 30, false,
           false, "json", false, "", "AES", [], [], [], [], [], [], "",
           Option.none, "", Option.none⟩,
          ⟨.ok 200 [] "", 0, fun _ _ => some false, fun _ _ _ => true,
           ⟨fun _ => some "no db", fun _ _ => .error "no db"⟩,
           fun _ _ => .missing, fun _ _ => ""⟩)] "批量" = some (r, rows) ∧
      r.passed + r.failed + r.error = r.total ∧
      r.total = (rows.length : Int) ∧ r.status = "completed" :=
  C1_report_count_invariants.1 testPrims [] _ "批量" (by simp)

/-- Evaluate the scan on a single complete `{{name}}` match followed by
nothing. -/
theorem substChars_single (f : String → Option String) (name : List Char)
    (hne : name ≠ []) (hnb : ∀ c ∈ name, c ≠ '}') :
    substChars f ('{' :: '{' :: (name ++ ['}', '}'])) =
      (match f (stripWs ⟨name⟩) with
       | some v => v.data
       | .none => '{' :: '{' :: (name ++ ['}', '}'])) := by
  have hsc : scanName (name ++ ['}', '}']) = some (name, []) := by
    have := scanName_glue name [] hne hnb
    simpa using this
  have := substChars_open_some f (name ++ ['}', '}']) name [] hsc
  rw [this, substChars_nil, List.append_nil]

/-- `_replace_vars` on a string that is exactly one placeholder: a bound
name is replaced by the `str` of its value, an unbound one is kept. -/
theorem replaceVars_full (name : String) (vs : List (String × PyVal))
    (hne : name.data ≠ []) (hnb : ∀ c ∈ name.data, c ≠ '}')
    (hstrip : stripWs name = name) :
    replaceVars ("\x7b\x7b" ++ name ++ "\x7d\x7d") vs =
      match alookup name vs with
      | some v => PyVal.pyStr v
      | .none => "\x7b\x7b" ++ name ++ "\x7d\x7d" := by
  unfold replaceVars
  have hdata : ("\x7b\x7b" ++ name ++ "\x7d\x7d").data = '{' :: '{' :: (name.data ++ ['}', '}']) := by
    simp [String.data_append]
  rw [hdata, substChars_single _ name.data hne hnb]
  have hmk : (⟨name.data⟩ : String) = name := rfl
  rw [hmk, hstrip]
  cases halo : alookup name vs with
  | none =>
    simp only [halo]
    exact String.ext hdata.symm
  | some v => simp [halo]

/-! ## C4: depth of `replace_vars_in_dict` -/

mutual

/-- Values in which every list element is a scalar or string and dicts
recurse — the shapes on which `replace_vars_in_dict` agrees with the
spec's fully recursive `substitute_deep`. -/
def goodDictVal : PyVal → Bool
  | .dict kvs => goodPairs kvs
  | .list xs => xs.all fun x =>
      match x with
      | .dict _ => false
      | .list _ => false
      | _ => true
  | _ => true

/-- `goodDictVal` over a dict's pairs. -/
def goodPairs : List (String × PyVal) → Bool
  | [] => true
  | (_, v) :: rest => goodDictVal v && goodPairs rest

end

/-- Top-level good shapes: strings, scalars and good dicts (a top-level
list is precisely where the two functions differ). -/
def goodTop : PyVal → Bool
  | .list _ => false
  | .dict kvs => goodPairs kvs
  | _ => true

/-- C4 counterexample: a top-level list is returned unchanged by
`replace_vars_in_dict` (executor.py:87 returns any non-dict non-string
as is), even though it holds a substitutable placeholder, while the
spec's `substitute_deep` substitutes it — the claim that every
placeholder at any nesting depth is replaced (a top-level list
elementwise) is false. -/
theorem C4_counterexample :
    replace_vars_in_dict [("x", .str "1")] (.list [.str "{{x}}"]) =
      .list [.str "{{x}}"] ∧
    substituteDeep [("x", .str "1")] (.list [.str "{{x}}"]) = .list [.str "1"] ∧
    PyVal.list [.str "{{x}}"] ≠ .list [.str "1"] := by
  refine ⟨?_, ?_, ?_⟩
  · simp [replace_vars_in_dict]
  · have h := replaceVars_full "x" [("x", .str "1")] (by decide) (by decide) (by decide)
    simp only [alookup] at h
    rw [show ("\x7b\x7b" ++ "x" ++ "\x7d\x7d" : String) = "{{x}}" from rfl] at h
    simp only [if_pos, PyVal.pyStr] at h
    simp [substituteDeep, substituteDeepList]
    exact h
  · intro h
    simp at h

/-- On lists of scalars and strings, the code's element map agrees with
the spec's recursive substitution. -/
theorem map_str_eq_deepList (vs : List (String × PyVal)) :
    ∀ xs : List PyVal,
      (xs.all fun x =>
        match x with
        | .dict _ => false
        | .list _ => false
        | _ => true) = true →
      (xs.map fun i =>
        match i with
        | .str s => PyVal.str (replaceVars s vs)
        | other => other) = substituteDeepList vs xs := by
  intro xs
  induction xs with
  | nil => intro _; simp [substituteDeepList]
  | cons x rest ih =>
    intro h
    simp only [List.all_cons, Bool.and_eq_true] at h
    obtain ⟨hx, hrest⟩ := h
    simp only [List.map_cons, substituteDeepList]
    rw [ih hrest]
    cases x with
    | str s => simp [substituteDeep]
    | num n => simp [substituteDeep]
    | bool b => simp [substituteDeep]
    | none => simp [substituteDeep]
    | dict kvs => simp at hx
    | list ys => simp at hx

mutual

/-- On good dict pairs and values, the code's dict loop agrees with the
spec's recursive substitution. -/
theorem rvid_eq_deep_pairs (vs : List (String × PyVal)) :
    ∀ kvs : List (String × PyVal), goodPairs kvs = true →
      rvidPairs vs kvs = substituteDeepPairs vs kvs
  | [], _ => by simp [rvidPairs, substituteDeepPairs]
  | (k, v) :: rest, h => by
    have h' : goodDictVal v = true ∧ goodPairs rest = true := by
      simpa [goodPairs, Bool.and_eq_true] using h
    simp only [rvidPairs, substituteDeepPairs]
    rw [rvid_eq_deep_val vs v h'.1, rvid_eq_deep_pairs vs rest h'.2]
termination_by kvs => sizeOf kvs

/-- On a good dict value, the code's value branch agrees with the spec's
recursive substitution. -/
theorem rvid_eq_deep_val (vs : List (String × PyVal)) :
    ∀ v : PyVal, goodDictVal v = true → rvidVal vs v = substituteDeep vs v
  | .str s, _ => by simp [rvidVal, substituteDeep]
  | .num n, _ => by simp [rvidVal, substituteDeep]
  | .bool b, _ => by simp [rvidVal, substituteDeep]
  | .none, _ => by simp [rvidVal, substituteDeep]
  | .dict d, h => by
    have hd : goodPairs d = true := by simpa [goodDictVal] using h
    simp only [rvidVal, substituteDeep]
    rw [rvid_eq_deep_pairs vs d hd]
  | .list ys, h => by
    have hys := h
    simp only [goodDictVal] at hys
    simp only [rvidVal, substituteDeep]
    rw [map_str_eq_deepList vs ys hys]
termination_by v => sizeOf v

end

/-- C4 as amended: `replace_vars_in_dict` substitutes in a top-level
string and, inside a dict, in string values, recursively in dict
values, and in the string elements of list values; a top-level list
(and any non-string element of a list, and any top-level non-dict
non-string value) is returned unchanged. On shapes without those
untouched spots — top-level strings, scalars, and dicts whose lists
hold only scalars and strings — it agrees with the spec's
`substitute_deep`. -/
theorem C4_substitution_depth :
    (∀ (vs : List (String × PyVal)) (xs : List PyVal),
        replace_vars_in_dict vs (.list xs) = .list xs) ∧
    (∀ (vs : List (String × PyVal)) (v : PyVal), goodTop v = true →
        replace_vars_in_dict vs v = substituteDeep vs v) := by
  constructor
  · intro vs xs
    simp [replace_vars_in_dict]
  · intro vs v hg
    cases v with
    | str s => simp [replace_vars_in_dict, substituteDeep]
    | num n => simp [replace_vars_in_dict, substituteDeep]
    | bool b => simp [replace_vars_in_dict, substituteDeep]
    | none => simp [replace_vars_in_dict, substituteDeep]
    | list xs => simp [goodTop] at hg
    | dict kvs =>
      have h : goodPairs kvs = true := by simpa [goodTop] using hg
      simp only [replace_vars_in_dict, substituteDeep]
      exact congrArg PyVal.dict (rvid_eq_deep_pairs vs kvs h)

/-- C4 witness: a concrete dict with a string inside a list value is
substituted identically by the code and the spec recursion. -/
theorem C4_witness :
    replace_vars_in_dict [("x", .str "1")] (.dict [("k", .list [.str "a"])]) =
      substituteDeep [("x", .str "1")] (.dict [("k", .list [.str "a"])]) :=
  C4_substitution_depth.2 [("x", .str "1")] (.dict [("k", .list [.str "a"])])
    (by simp [goodTop, goodPairs, goodDictVal])

/-! ## C3: error status semantics -/

/-- Whether the HTTP dispatch raised (timeout or other exception). -/
def httpFailed : HttpOut → Bool
  | .ok _ _ _ => false
  | _ => true

/-- A string with a non-empty prefix is non-empty. -/
theorem prepend_ne_empty (a b : String) (ha : a.data ≠ []) : a ++ b ≠ "" := by
  intro h
  apply ha
  have : (a ++ b).data = a.data ++ b.data := String.data_append a b
  rw [h] at this
  have := this.symm
  exact List.append_eq_nil.mp this |>.1

theorem pipelineStatus_error_iff (em : String) (decl ok : Bool) (st : Int) :
    pipelineStatus em decl ok st = "error" ↔ em ≠ "" := by
  unfold pipelineStatus
  by_cases h : em ≠ ""
  · simp [h]
  · simp only [h, if_neg, if_false]
    simp at h
    subst h
    constructor
    · intro hcontra
      split at hcontra
      · split at hcontra <;> simp_all
      · split at hcontra <;> simp_all
    · intro hcontra
      simp at hcontra

/-- C3: the pipeline's returned status is `error` exactly when
`error_message` is non-empty; an `error` status implies `response_status`
is still `0`; and any HTTP-level failure (timeout or exception) leaves
`response_status` at its initial `0`. -/
theorem C3_error_status_semantics :
    ∀ (P : CryptoPrims) (o : PipelineOracle) (cfg : ApiCfg)
      (g extra : List (String × PyVal)),
      (((execute_api P o cfg g extra).1.status = "error") ↔
        (execute_api P o cfg g extra).1.error_message ≠ "") ∧
      ((execute_api P o cfg g extra).1.status = "error" →
        (execute_api P o cfg g extra).1.response_status = 0) ∧
      (httpFailed o.http = true →
        (execute_api P o cfg g extra).1.response_status = 0) := by
  intro P o cfg g extra
  cases htt : o.http with
  | ok st hd bd =>
    refine ⟨?_, ?_, ?_⟩
    · simp only [execute_api, htt]
      rw [pipelineStatus_error_iff]
    · simp only [execute_api, htt]
      rw [pipelineStatus_error_iff]
      intro h
      exact absurd rfl h
    · intro h
      simp [htt, httpFailed] at h
  | timeoutSync =>
    refine ⟨?_, ?_, ?_⟩
    · simp only [execute_api, htt]
      rw [pipelineStatus_error_iff]
    · intro _
      simp [execute_api, htt]
    · intro _
      simp [execute_api, htt]
  | timeoutAsync =>
    refine ⟨?_, ?_, ?_⟩
    · simp only [execute_api, htt]
      rw [pipelineStatus_error_iff]
    · intro _
      simp [execute_api, htt]
    · intro _
      simp [execute_api, htt]
  | exn m =>
    refine ⟨?_, ?_, ?_⟩
    · simp only [execute_api, htt]
      rw [pipelineStatus_error_iff]
    · intro _
      simp [execute_api, htt]
    · intro _
      simp [execute_api, htt]

/-- A pipeline oracle whose HTTP dispatch times out synchronously and
whose other collaborators are inert. -/
def timeoutOracle : PipelineOracle :=
  ⟨.timeoutSync, 0, fun _ _ => some false, fun _ _ _ => true,
   ⟨fun _ => some "無數據庫", fun _ _ => .error "無數據庫"⟩,
   fun _ _ => .missing, fun _ _ => ""⟩

/-- A minimal stored API configuration. -/
def testCfg : ApiCfg :=
  ⟨"api", "http://h", "GET", .dict [], .dict [], .dict [], 30, false, false,
   "json", false, "", "AES", [], [], [], [], [], [], "", Option.none, "",
   Option.none⟩

/-- C3 witness: a concrete timed-out execution keeps `response_status = 0`. -/
theorem C3_witness :
    (execute_api testPrims timeoutOracle testCfg [] []).1.response_status = 0 :=
  (C3_error_status_semantics testPrims timeoutOracle testCfg [] []).2.2 rfl

/-! ## C9: `_raw` parameter handling -/

/-- Dropping a leading run of one character keeps membership of any
other character. -/
theorem mem_dropWhile_of_ne {c d : Char} (hc : c ≠ d) :
    ∀ l : List Char, c ∈ l.dropWhile (· = d) ↔ c ∈ l := by
  intro l
  induction l with
  | nil => simp
  | cons a as ih =>
    by_cases ha : a = d
    · subst ha
      simp only [List.dropWhile_cons, decide_True, if_pos]
      rw [ih]
      simp [hc]
    · simp [List.dropWhile_cons, ha]

/-- Stripping surrounding `/` neither adds nor removes `=`. -/
theorem strHasChar_eq_stripSlash (s : String) :
    strHasChar (stripSlash s) '=' = strHasChar s '=' := by
  unfold strHasChar stripSlash
  simp only [decide_eq_decide]
  have hne : ('=' : Char) ≠ '/' := by decide
  constructor
  · intro h
    simp only [List.mem_reverse] at h
    rw [mem_dropWhile_of_ne hne] at h
    simp only [List.mem_reverse] at h
    rw [mem_dropWhile_of_ne hne] at h
    exact h
  · intro h
    simp only [List.mem_reverse]
    rw [mem_dropWhile_of_ne hne]
    simp only [List.mem_reverse]
    rw [mem_dropWhile_of_ne hne]
    exact h

/-- C9: the `_raw` params entry is removed from the query parameters and
appended to the URL — as an extra query string (with `?` when the URL
has no query yet and `&` otherwise) when it contains `=`, else as a
trailing path segment; stripping the surrounding slashes does not change
whether it contains `=`; and `{"_raw": "abc"}` on `https://h/p` yields
`https://h/p/abc`. -/
theorem C9_raw_param_handling :
    (∀ (params : List (String × PyVal)) (v : PyVal),
        ("_raw", v) ∉ buildKwargsParams params) ∧
    (∀ (url : String) (params : List (String × PyVal)) (v : PyVal),
        alookup "_raw" params = some v →
        buildKwargsUrl url params =
          if strHasChar (stripSlash (PyVal.pyStr v)) '=' then
            url ++ (if strHasChar url '?' then "&" else "?") ++
              stripSlash (PyVal.pyStr v)
          else rstripSlash url ++ "/" ++ stripSlash (PyVal.pyStr v)) ∧
    (∀ s : String, strHasChar (stripSlash s) '=' = strHasChar s '=') ∧
    buildKwargsUrl "https://h/p" [("_raw", .str "abc")] = "https://h/p/abc" := by
  refine ⟨?_, ?_, strHasChar_eq_stripSlash, by decide⟩
  · intro params v hmem
    simp only [buildKwargsParams, List.mem_filter] at hmem
    simp at hmem
  · intro url params v h
    simp [buildKwargsUrl, h]

/-- C9 witness: a concrete `_raw` value containing `=` is appended as a
query string with `?`. -/
theorem C9_witness :
    buildKwargsUrl "https://h/p" [("_raw", PyVal.str "a=1")] = "https://h/p?a=1" :=
  (C9_raw_param_handling.2.1 "https://h/p" [("_raw", PyVal.str "a=1")]
    (PyVal.str "a=1") rfl).trans (by decide)

/-! ## C8: AES-GCM output shape -/

/-- Decoding inverts encoding on 6-bit values. -/
theorem b64_dec_enc : ∀ w : Nat, w < 64 → b64DecChar (b64EncChar w) = some w := by
  decide

/-- Encoded characters are never padding. -/
theorem b64_enc_ne_pad : ∀ w : Nat, w < 64 → b64EncChar w ≠ '=' := by
  decide

/-- Base64 decoding inverts encoding on byte lists. -/
theorem b64_decode_encode : ∀ bs : List Nat, (∀ b ∈ bs, b < 256) →
    b64DecodeChars (b64EncodeChars bs) = some bs
  | [], _ => by simp [b64EncodeChars, b64DecodeChars]
  | [a], h => by
    have ha : a < 256 := h a (by simp)
    have h1 : a / 4 < 64 := by omega
    have h2 : a % 4 * 16 < 64 := by omega
    simp only [b64EncodeChars, b64DecodeChars]
    rw [if_pos (by simp), b64_dec_enc _ h1, b64_dec_enc _ h2]
    simp only [Option.some_inj, List.cons.injEq, and_true]
    omega
  | [a, b], h => by
    have ha : a < 256 := h a (by simp)
    have hb : b < 256 := h b (by simp)
    have h1 : a / 4 < 64 := by omega
    have h2 : a % 4 * 16 + b / 16 < 64 := by omega
    have h3 : b % 16 * 4 < 64 := by omega
    simp only [b64EncodeChars, b64DecodeChars]
    rw [if_neg (by simp [b64_enc_ne_pad _ h3]), if_pos (by simp),
      b64_dec_enc _ h1, b64_dec_enc _ h2, b64_dec_enc _ h3]
    simp only [Option.some_inj, List.cons.injEq, and_true]
    omega
  | a :: b :: c :: rest, h => by
    have ha : a < 256 := h a (by simp)
    have hb : b < 256 := h b (by simp)
    have hc : c < 256 := h c (by simp)
    have h1 : a / 4 < 64 := by omega
    have h2 : a % 4 * 16 + b / 16 < 64 := by omega
    have h3 : b % 16 * 4 + c / 64 < 64 := by omega
    have h4 : c % 64 < 64 := by omega
    have ih := b64_decode_encode rest (fun x hx => h x (by simp [hx]))
    simp only [b64EncodeChars, b64DecodeChars]
    rw [if_neg (by simp [b64_enc_ne_pad _ h3]), if_neg (by simp [b64_enc_ne_pad _ h4]),
      b64_dec_enc _ h1, b64_dec_enc _ h2, b64_dec_enc _ h3, b64_dec_enc _ h4, ih]
    simp only [Option.map_some', Option.some_inj, List.cons.injEq, and_true]
    omega
termination_by bs => bs.length

theorem natToBytesBE_length (k n : Nat) : (natToBytesBE k n).length = k := by
  simp [natToBytesBE]

theorem natToBytesBE_lt (k n : Nat) : ∀ x ∈ natToBytesBE k n, x < 256 := by
  intro x hx
  simp only [natToBytesBE, List.mem_map] at hx
  obtain ⟨i, _, hi⟩ := hx
  omega

/-- Bytewise xor of byte lists stays below 256. -/
theorem zipWith_xor_lt : ∀ (xs ys : List Nat), (∀ x ∈ xs, x < 256) →
    (∀ y ∈ ys, y < 256) →
    ∀ z ∈ List.zipWith (fun a b => a ^^^ b) xs ys, z < 256 := by
  intro xs
  induction xs with
  | nil => intro ys _ _ z hz; simp at hz
  | cons x xs ih =>
    intro ys hx hy z hz
    cases ys with
    | nil => simp at hz
    | cons y ys =>
      simp only [List.zipWith_cons_cons, List.mem_cons] at hz
      cases hz with
      | inl hz =>
        subst hz
        exact Nat.xor_lt_two_pow (n := 8) (hx x (by simp)) (hy y (by simp))
      | inr hz =>
        exact ih ys (fun a haa => hx a (by simp [haa]))
          (fun a haa => hy a (by simp [haa])) z hz

/-- The CTR keystream has `16 * nblocks` bytes, all below 256, for any
16-byte block cipher. -/
theorem keystream_length (E : List Nat → List Nat → List Nat) (key : List Nat)
    (hE : ∀ k b, (E k b).length = 16) (n : Nat) :
    ((List.range n).bind fun i =>
      E key (List.replicate 12 0 ++ natToBytesBE 4 (i + 2))).length = 16 * n := by
  rw [List.length_flatMap]
  simp only [Function.comp_def]
  have hrep : ((List.range n).map fun i =>
      (E key (List.replicate 12 0 ++ natToBytesBE 4 (i + 2))).length) =
      List.replicate n 16 := by
    rw [List.eq_replicate_iff]
    refine ⟨by simp, ?_⟩
    intro x hx
    simp only [List.mem_map] at hx
    obtain ⟨i, _, hi⟩ := hx
    rw [← hi, hE]
  rw [hrep, List.sum_replicate]
  simp [Nat.mul_comm]

/-- C8: for any 16-byte block cipher, `encrypt_gcm` output base64-decodes
to exactly `12 + len(plain) + 16` bytes whose first 12 are the fixed
zero IV; and the `AES-GCM` branch of `encrypt_body` is independent of
the random-IV source, so two calls with the same block cipher, body and
key are byte-identical. -/
theorem C8_gcm_output_shape :
    (∀ (E : List Nat → List Nat → List Nat) (plain key : List Nat),
      (∀ k b, (E k b).length = 16 ∧ ∀ x ∈ E k b, x < 256) →
      (∀ b ∈ plain, b < 256) →
      ∃ bytes, b64decode (encrypt_gcm_bytes E plain key) = some bytes ∧
        bytes.length = 12 + plain.length + 16 ∧
        bytes.take 12 = List.replicate 12 0) ∧
    (∀ (P1 P2 : CryptoPrims) (body key : String), P1.aesBlock = P2.aesBlock →
        encrypt_body P1 body "AES-GCM" key = encrypt_body P2 body "AES-GCM" key) := by
  constructor
  · intro E plain key hE hp
    have hElen : ∀ k b, (E k b).length = 16 := fun k b => (hE k b).1
    have hElt : ∀ k b, ∀ x ∈ E k b, x < 256 := fun k b => (hE k b).2
    set kk := gcmAdjustKey key with hkk
    have hksl := keystream_length E kk hElen ((plain.length + 15) / 16)
    have hct_len : ((gcmEncrypt E kk plain).1).length = plain.length := by
      simp only [gcmEncrypt, List.length_zipWith, hksl]
      omega
    have hct_lt : ∀ x ∈ (gcmEncrypt E kk plain).1, x < 256 := by
      simp only [gcmEncrypt]
      apply zipWith_xor_lt
      · exact hp
      · intro y hy
        simp only [List.mem_bind] at hy
        obtain ⟨i, _, hi⟩ := hy
        exact hElt _ _ y hi
    have htag_len : ((gcmEncrypt E kk plain).2).length = 16 := by
      simp [gcmEncrypt, List.length_zipWith, hElen, natToBytesBE_length]
    have htag_lt : ∀ x ∈ (gcmEncrypt E kk plain).2, x < 256 := by
      simp only [gcmEncrypt]
      apply zipWith_xor_lt
      · exact hElt _ _
      · exact natToBytesBE_lt _ _
    refine ⟨List.replicate 12 0 ++ (gcmEncrypt E kk plain).1 ++ (gcmEncrypt E kk plain).2,
      ?_, ?_, ?_⟩
    · unfold encrypt_gcm_bytes b64decode b64encode
      rw [← hkk]
      apply b64_decode_encode
      intro b hb
      simp only [List.mem_append, List.mem_replicate] at hb
      rcases hb with (⟨_, hb⟩ | hb) | hb
      · omega
      · exact hct_lt b hb
      · exact htag_lt b hb
    · simp [hct_len, htag_len]
      omega
    · rw [List.append_assoc, List.take_append_of_le_length (by simp)]
      simp
  · intro P1 P2 body key h
    simp [encrypt_body, encrypt_gcm, h]

/-- C8 witness: a concrete degenerate 16-byte block cipher, plaintext
`[104, 105]` and empty key give a decodable output of `12 + 2 + 16`
bytes starting with the zero IV. -/
theorem C8_witness :
    ∃ bytes,
      b64decode (encrypt_gcm_bytes (fun _ _ => List.replicate 16 7) [104, 105] []) =
        some bytes ∧
      bytes.length = 12 + ([104, 105] : List Nat).length + 16 ∧
      bytes.take 12 = List.replicate 12 0 :=
  C8_gcm_output_shape.1 (fun _ _ => List.replicate 16 7) [104, 105] []
    (fun _ _ => ⟨by simp, by intro x hx; simp at hx; omega⟩)
    (by intro b hb; simp at hb; omega)

/-! ## C5: idempotence of substitution -/

/-- A successful `alookup` hit is a member of the list. -/
theorem alookup_mem {α : Type _} (k : String) (v : α) :
    ∀ l : List (String × α), alookup k l = some v → (k, v) ∈ l := by
  intro l
  induction l with
  | nil => intro h; simp [alookup] at h
  | cons p rest ih =>
    intro h
    obtain ⟨k', w⟩ := p
    by_cases hk : k' = k
    · subst hk
      rw [alookup, if_pos rfl] at h
      injection h with h
      subst h
      simp
    · rw [alookup, if_neg hk] at h
      exact List.mem_cons_of_mem _ (ih h)

/-- A string with empty character data is the empty string. -/
theorem str_eq_empty_of_data_nil (s : String) (h : s.data = []) : s = "" := by
  apply String.ext
  simp [h]

/-- Emitting a `'{'`-free prefix distributes over the scan. -/
theorem substChars_append_no_lbrace (f : String → Option String) :
    ∀ (v t : List Char), (∀ c ∈ v, c ≠ '{') →
      substChars f (v ++ t) = v ++ substChars f t := by
  intro v
  induction v with
  | nil => intro t _; simp
  | cons c v' ih =>
    intro t hv
    have hc : c ≠ '{' := hv c (by simp)
    rw [List.cons_append, substChars_not_open f c (v' ++ t) (by simp [hc])]
    rw [ih t (fun x hx => hv x (by simp [hx]))]
    rfl

/-- After a `'}'`-free run, a single `'}'` not followed by another `'}'`
can complete no match. -/
theorem scanName_boundary (run z : List Char) (hrun : ∀ c ∈ run, c ≠ '}')
    (hz : z.head? ≠ some '}') :
    scanName (run ++ '}' :: z) = .none := by
  unfold scanName
  rw [splitAtRBrace_glue run z hrun]
  split
  · rfl
  · rename_i run' rest' hrun' heq
    exfalso
    have h2 := congrArg Prod.snd heq
    simp only at h2
    cases z with
    | nil => simp at h2
    | cons z0 z' =>
      simp only [List.cons.injEq] at h2
      apply hz
      rw [h2.2.1]
      rfl
  · rfl

/-- A scan starting at `'}'` finds no match. -/
theorem scanName_rbrace_head (x : List Char) : scanName ('}' :: x) = .none := by
  unfold scanName splitAtRBrace
  simp

/-- The remainder produced by `splitAtRBrace` is empty or starts with `'}'`. -/
theorem splitAtRBrace_snd_shape (l : List Char) :
    (splitAtRBrace l).2 = [] ∨ ∃ t, (splitAtRBrace l).2 = '}' :: t := by
  induction l with
  | nil => left; simp [splitAtRBrace]
  | cons c cs ih =>
    by_cases hc : c = '}'
    · right
      exact ⟨cs, by simp [splitAtRBrace, hc]⟩
    · simpa [splitAtRBrace, hc] using ih

/-- Extending a match head by `'{'` still matches, with the `'{'`
absorbed into the name. -/
theorem scanName_tail_some (cs3 n r : List Char) (h : scanName cs3 = some (n, r)) :
    scanName ('{' :: cs3) = some ('{' :: n, r) := by
  obtain ⟨hshape, hne, hnb⟩ := scanName_some cs3 n r h
  subst hshape
  have : ('{' :: (n ++ '}' :: '}' :: r)) = ('{' :: n) ++ '}' :: '}' :: r := by simp
  rw [this]
  apply scanName_glue
  · simp
  · intro c hc
    simp only [List.mem_cons] at hc
    rcases hc with hc | hc
    · subst hc; decide
    · exact hnb c hc

/-- A scan with no match at the second position either: one emitted
`'{'`. -/
theorem substChars_lbrace_cons (f : String → Option String) (cs2 : List Char)
    (h : scanName cs2 = .none) :
    substChars f ('{' :: cs2) = '{' :: substChars f cs2 := by
  cases cs2 with
  | nil =>
    rw [substChars_not_open f '{' [] (by simp)]
  | cons c cs3 =>
    by_cases hc : c = '{'
    · subst hc
      have h3 : scanName cs3 = .none := by
        cases h3 : scanName cs3 with
        | none => rfl
        | some p =>
          obtain ⟨n, r⟩ := p
          rw [scanName_tail_some cs3 n r h3] at h
          exact Option.noConfusion h
      exact substChars_open_none f cs3 h3
    · rw [substChars_not_open f '{' (c :: cs3) (by simp [hc])]

/-- A `'}'`-free list is a fixed point of the scan. -/
theorem substChars_no_rbrace (f : String → Option String) :
    ∀ l : List Char, (∀ c ∈ l, c ≠ '}') → substChars f l = l
  | [], _ => by rw [substChars_nil]
  | c :: cs, h => by
    have hcs : ∀ x ∈ cs, x ≠ '}' := fun x hx => h x (by simp [hx])
    by_cases hopen : c = '{' ∧ cs.head? = some '{'
    · obtain ⟨hc, hh⟩ := hopen
      subst hc
      cases cs with
      | nil => simp at hh
      | cons c2 cs2 =>
        simp only [List.head?_cons, Option.some_inj] at hh
        subst hh
        have hsc : scanName cs2 = .none := by
          unfold scanName
          rw [splitAtRBrace_of_no_rbrace cs2
            (fun x hx => hcs x (by simp [hx]))]
          cases cs2 <;> rfl
        rw [substChars_open_none f cs2 hsc,
          substChars_no_rbrace f ('{' :: cs2) hcs]
    · rw [substChars_not_open f c cs hopen, substChars_no_rbrace f cs hcs]
termination_by l => l.length

/-- Substituting a list that starts with a non-`'}'` character yields a
list that still starts with a non-`'}'` character, when every
substituted value is nonempty and brace-free. -/
theorem substChars_head_ne (f : String → Option String)
    (hf : ∀ n v, f n = some v → v ≠ "" ∧ ∀ c ∈ v.data, c ≠ '{' ∧ c ≠ '}')
    (z : List Char) (c0 : Char) (hz : z.head? = some c0) (hc0 : c0 ≠ '}') :
    ∃ c1, (substChars f z).head? = some c1 ∧ c1 ≠ '}' := by
  cases z with
  | nil => simp at hz
  | cons a zs =>
    simp only [List.head?_cons, Option.some_inj] at hz
    subst hz
    by_cases hopen : a = '{' ∧ zs.head? = some '{'
    · obtain ⟨hc, hh⟩ := hopen
      subst hc
      cases zs with
      | nil => simp at hh
      | cons z1 zs2 =>
        simp only [List.head?_cons, Option.some_inj] at hh
        subst hh
        cases hscan : scanName zs2 with
        | some p =>
          obtain ⟨name, r3⟩ := p
          rw [substChars_open_some f zs2 name r3 hscan]
          cases hv : f (stripWs ⟨name⟩) with
          | some v =>
            obtain ⟨hvne, hvb⟩ := hf _ _ hv
            cases hd : v.data with
            | nil => exact absurd (str_eq_empty_of_data_nil v hd) hvne
            | cons d ds =>
              refine ⟨d, ?_, (hvb d (by rw [hd]; simp)).2⟩
              simp [hv, hd]
          | none =>
            refine ⟨'{', ?_, by decide⟩
            simp [hv]
        | none =>
          rw [substChars_open_none f zs2 hscan]
          exact ⟨'{', by simp, by decide⟩
    · rw [substChars_not_open f a zs hopen]
      exact ⟨a, by simp, hc0⟩

/-- Substitution walks over a `'}'`-free run followed by a lone `'}'`,
emitting them unchanged. -/
theorem substChars_runEmit (f : String → Option String) :
    ∀ (run z : List Char), (∀ c ∈ run, c ≠ '}') → z.head? ≠ some '}' →
      substChars f (run ++ '}' :: z) = run ++ '}' :: substChars f z
  | [], z, _, _ => by
    rw [List.nil_append, substChars_not_open f '}' z (by simp)]
    rfl
  | c :: rest, z, hrun, hz => by
    by_cases hc2 : c = '{' ∧ ((rest ++ '}' :: z).head? = some '{')
    · obtain ⟨hcEq, hh⟩ := hc2
      subst hcEq
      cases rest with
      | nil => simp at hh
      | cons r1 rest' =>
        simp only [List.cons_append, List.head?_cons, Option.some_inj] at hh
        subst hh
        have hsc : scanName (rest' ++ '}' :: z) = .none :=
          scanName_boundary rest' z (fun x hx => hrun x (by simp [hx])) hz
        have hre : ('{' :: '{' :: rest') ++ '}' :: z =
            '{' :: '{' :: (rest' ++ '}' :: z) := by simp
        rw [hre, substChars_open_none f (rest' ++ '}' :: z) hsc]
        have hre2 : ('{' :: (rest' ++ '}' :: z)) = ('{' :: rest') ++ '}' :: z := by simp
        rw [hre2, substChars_runEmit f ('{' :: rest') z
          (fun x hx => hrun x (by
            simp only [List.mem_cons] at hx ⊢
            rcases hx with hx | hx
            · exact Or.inl hx
            · exact Or.inr (Or.inr hx))) hz]
        simp
    · rw [List.cons_append, substChars_not_open f c (rest ++ '}' :: z) hc2]
      rw [substChars_runEmit f rest z (fun x hx => hrun x (by simp [hx])) hz]
      rfl
termination_by run _ _ _ => run.length

/-- Substitution preserves the absence of a match at the head, when
every substituted value is nonempty and brace-free. -/
theorem scanName_none_subst (f : String → Option String)
    (hf : ∀ n v, f n = some v → v ≠ "" ∧ ∀ c ∈ v.data, c ≠ '{' ∧ c ≠ '}')
    (ds : List Char) (h : scanName ds = .none) :
    scanName (substChars f ds) = .none := by
  have hsp := splitAtRBrace_append ds
  have hno := splitAtRBrace_fst_no_rbrace ds
  have hshape := splitAtRBrace_snd_shape ds
  rcases hrt : splitAtRBrace ds with ⟨run, tl⟩
  rw [hrt] at hsp hno hshape
  simp only at hsp hno hshape
  cases run with
  | nil =>
    rcases hshape with htl | ⟨t, htl⟩
    · have hds : ds = [] := by rw [← hsp, htl]; rfl
      rw [hds, substChars_nil]
      rfl
    · have hds : ds = '}' :: t := by rw [← hsp, htl]; rfl
      rw [hds, substChars_not_open f '}' t (by simp)]
      exact scanName_rbrace_head _
  | cons r0 run' =>
    rcases hshape with htl | ⟨t, htl⟩
    · have hds : ds = r0 :: run' := by rw [← hsp, htl]; simp
      rw [hds, substChars_no_rbrace f _ (hds ▸ hno)]
      rw [← hds]
      exact h
    · have hds : ds = (r0 :: run') ++ '}' :: t := by rw [← hsp, htl]
      have hzt : t.head? ≠ some '}' := by
        intro hcontra
        cases t with
        | nil => simp at hcontra
        | cons t0 t' =>
          simp only [List.head?_cons, Option.some_inj] at hcontra
          subst hcontra
          rw [hds, scanName_glue (r0 :: run') t' (by simp) hno] at h
          exact Option.noConfusion h
      rw [hds, substChars_runEmit f (r0 :: run') t hno hzt]
      apply scanName_boundary _ _ hno
      cases t with
      | nil =>
        rw [substChars_nil]
        simp
      | cons t0 t' =>
        have ht0 : t0 ≠ '}' := fun hcon => hzt (by rw [hcon]; rfl)
        obtain ⟨c1, hc1, hc1ne⟩ := substChars_head_ne f hf (t0 :: t') t0 rfl ht0
        rw [hc1]
        simp [hc1ne]

/-- When every substituted value is a nonempty brace-free string, one
scan pass is idempotent: a second pass changes nothing. -/
theorem substChars_idem (f : String → Option String)
    (hf : ∀ n v, f n = some v → v ≠ "" ∧ ∀ c ∈ v.data, c ≠ '{' ∧ c ≠ '}') :
    ∀ l : List Char, substChars f (substChars f l) = substChars f l
  | [] => by rw [substChars_nil, substChars_nil]
  | c :: cs => by
    by_cases hopen : c = '{' ∧ cs.head? = some '{'
    · obtain ⟨hc, hh⟩ := hopen
      subst hc
      cases cs with
      | nil => simp at hh
      | cons c2 cs2 =>
        simp only [List.head?_cons, Option.some_inj] at hh
        subst hh
        cases hscan : scanName cs2 with
        | some p =>
          obtain ⟨name, r3⟩ := p
          obtain ⟨hshape, hne, hnb⟩ := scanName_some cs2 name r3 hscan
          rw [substChars_open_some f cs2 name r3 hscan]
          cases hv : f (stripWs ⟨name⟩) with
          | some v =>
            simp only [hv]
            obtain ⟨hvne, hvb⟩ := hf _ _ hv
            rw [substChars_append_no_lbrace f v.data (substChars f r3)
              (fun x hx => (hvb x hx).1)]
            rw [substChars_idem f hf r3]
          | none =>
            simp only [hv]
            have hre : ('{' :: '{' :: (name ++ ['}', '}'])) ++ substChars f r3 =
                '{' :: '{' :: (name ++ '}' :: '}' :: substChars f r3) := by simp
            rw [hre]
            rw [substChars_open_some f (name ++ '}' :: '}' :: substChars f r3)
              name (substChars f r3) (scanName_glue name (substChars f r3) hne hnb)]
            simp only [hv]
            rw [substChars_idem f hf r3]
            simp
        | none =>
          rw [substChars_open_none f cs2 hscan, substChars_lbrace_cons f cs2 hscan]
          have hnone2 : scanName (substChars f cs2) = .none :=
            scanName_none_subst f hf cs2 hscan
          rw [substChars_open_none f (substChars f cs2) hnone2,
            substChars_lbrace_cons f (substChars f cs2) hnone2]
          rw [substChars_idem f hf cs2]
    · rw [substChars_not_open f c cs hopen]
      have hcs : cs.head? ≠ some '{' ∨ c ≠ '{' := by
        by_cases hc : c = '{'
        · exact Or.inl (fun hx => hopen ⟨hc, hx⟩)
        · exact Or.inr hc
      have hcond : ¬(c = '{' ∧ (substChars f cs).head? = some '{') := by
        rintro ⟨hc, hh⟩
        subst hc
        have hcsh : cs.head? ≠ some '{' := by
          rcases hcs with hx | hx
          · exact hx
          · exact absurd rfl hx
        cases cs with
        | nil =>
          rw [substChars_nil] at hh
          simp at hh
        | cons a as =>
          have ha : a ≠ '{' := by
            intro haeq
            exact hcsh (by rw [haeq]; rfl)
          rw [substChars_not_open f a as (by simp [ha])] at hh
          simp only [List.head?_cons, Option.some_inj] at hh
          exact ha hh
      rw [substChars_not_open f c (substChars f cs) hcond]
      rw [substChars_idem f hf cs]
termination_by l => l.length
decreasing_by
all_goals try simp only [List.length_cons]
all_goals try have := scanName_some_length _ _ _ hscan
all_goals omega

/-- Syntactic test for a `\{\{([^}]+)\}\}` match anywhere in the list,
mirroring the scan of `_replace_vars` (executor.py:72-77). -/
def hasPlaceholder : List Char → Bool
  | [] => false
  | c :: cs =>
    (decide (c = '{') && (cs.head? == some '{') && (scanName cs.tail).isSome) ||
    hasPlaceholder cs

/-- A list with no placeholder match is a fixed point of the scan. -/
theorem substChars_no_placeholder (f : String → Option String) :
    ∀ l : List Char, hasPlaceholder l = false → substChars f l = l
  | [], _ => substChars_nil f
  | c :: cs, h => by
    rw [hasPlaceholder] at h
    simp only [Bool.or_eq_false_iff, Bool.and_eq_false_iff] at h
    obtain ⟨h1, h2⟩ := h
    by_cases hopen : c = '{' ∧ cs.head? = some '{'
    · obtain ⟨hc, hh⟩ := hopen
      subst hc
      cases cs with
      | nil => simp at hh
      | cons c2 cs2 =>
        simp only [List.head?_cons, Option.some_inj] at hh
        subst hh
        have hsc : scanName cs2 = .none := by
          rcases h1 with h1 | h1
          · rcases h1 with h1 | h1
            · simp at h1
            · simp at h1
          · simp only [List.tail_cons] at h1
            exact Option.not_isSome_iff_eq_none.mp (by rw [h1]; exact Bool.false_ne_true)
        rw [substChars_open_none f cs2 hsc,
          substChars_no_placeholder f ('{' :: cs2) h2]
    · rw [substChars_not_open f c cs hopen,
        substChars_no_placeholder f cs h2]
termination_by l => l.length

/-- C5 counterexample: with variables a = "{{b}}" and b = "c",
substituting once in "{{a}}" yields "{{b}}" but substituting twice
yields "c", so substitution is not idempotent in general — a value may
itself contain a placeholder that the second pass resolves. -/
theorem C5_counterexample :
    replaceVars "{{a}}" [("a", PyVal.str "{{b}}"), ("b", PyVal.str "c")] = "{{b}}" ∧
    replaceVars (replaceVars "{{a}}" [("a", PyVal.str "{{b}}"), ("b", PyVal.str "c")])
      [("a", PyVal.str "{{b}}"), ("b", PyVal.str "c")] = "c" ∧
    ("c" : String) ≠ "{{b}}" := by
  have h1 : replaceVars "{{a}}" [("a", PyVal.str "{{b}}"), ("b", PyVal.str "c")]
      = "{{b}}" := by
    have h := replaceVars_full "a" [("a", PyVal.str "{{b}}"), ("b", PyVal.str "c")]
      (by decide) (by decide) (by decide)
    have he : ("\x7b\x7b" ++ "a" ++ "\x7d\x7d" : String) = "{{a}}" := rfl
    rw [he] at h
    have halo : alookup "a" [("a", PyVal.str "{{b}}"), ("b", PyVal.str "c")] =
        some (PyVal.str "{{b}}") := rfl
    rw [halo] at h
    exact h
  have h2 : replaceVars "{{b}}" [("a", PyVal.str "{{b}}"), ("b", PyVal.str "c")]
      = "c" := by
    have h := replaceVars_full "b" [("a", PyVal.str "{{b}}"), ("b", PyVal.str "c")]
      (by decide) (by decide) (by decide)
    have he : ("\x7b\x7b" ++ "b" ++ "\x7d\x7d" : String) = "{{b}}" := rfl
    rw [he] at h
    have halo : alookup "b" [("a", PyVal.str "{{b}}"), ("b", PyVal.str "c")] =
        some (PyVal.str "c") := rfl
    rw [halo] at h
    exact h
  refine ⟨h1, ?_, by decide⟩
  rw [h1, h2]

/-- C5 (amended): substitution by `_replace_vars` (executor.py:72-77) is
idempotent provided every value of `variables` renders as a nonempty
string containing neither `'{'` nor `'}'`; unconditionally, a string
with no `\{\{([^}]+)\}\}` match is a fixed point, and `{{unknown}}`
with `unknown` absent from `variables` passes through unchanged. In
general idempotence fails, since a substituted value may itself contain
or complete a placeholder (see the counterexample). -/
theorem C5_substitution_idempotence :
    (∀ vs : List (String × PyVal),
      (∀ kv ∈ vs, PyVal.pyStr kv.2 ≠ "" ∧
        ∀ c ∈ (PyVal.pyStr kv.2).data, c ≠ '{' ∧ c ≠ '}') →
      ∀ s : String, replaceVars (replaceVars s vs) vs = replaceVars s vs) ∧
    (∀ (vs : List (String × PyVal)) (s : String),
      hasPlaceholder s.data = false → replaceVars s vs = s) ∧
    (∀ vs : List (String × PyVal), (alookup "unknown" vs).isNone = true →
      replaceVars "{{unknown}}" vs = "{{unknown}}") := by
  refine ⟨?_, ?_, ?_⟩
  · intro vs hvs s
    have hf : ∀ n v, (alookup n vs).map PyVal.pyStr = some v →
        v ≠ "" ∧ ∀ c ∈ v.data, c ≠ '{' ∧ c ≠ '}' := by
      intro n v hfv
      rw [Option.map_eq_some'] at hfv
      obtain ⟨w, hw, hpv⟩ := hfv
      have hm := hvs (n, w) (alookup_mem n w vs hw)
      rw [← hpv]
      exact hm
    exact congrArg String.mk
      (substChars_idem (fun n => (alookup n vs).map PyVal.pyStr) hf s.data)
  · intro vs s h
    exact congrArg String.mk (substChars_no_placeholder _ s.data h)
  · intro vs h
    have halo : alookup "unknown" vs = Option.none := Option.isNone_iff_eq_none.mp h
    have hfull := replaceVars_full "unknown" vs (by decide) (by decide) (by decide)
    rw [halo] at hfull
    exact hfull

/-- C5 witness: with the single variable a = "x" — a nonempty brace-free
value — substituting twice equals substituting once; a placeholder-free
string is fixed; and "{{unknown}}" passes through. -/
theorem C5_witness :
    replaceVars (replaceVars "pre {{a}} and {{zz}}" [("a", PyVal.str "x")])
        [("a", PyVal.str "x")] =
      replaceVars "pre {{a}} and {{zz}}" [("a", PyVal.str "x")] ∧
    replaceVars "plain text" [("a", PyVal.str "x")] = "plain text" ∧
    replaceVars "{{unknown}}" [("a", PyVal.str "x")] = "{{unknown}}" :=
  ⟨C5_substitution_idempotence.1 [("a", PyVal.str "x")] (by decide)
      "pre {{a}} and {{zz}}",
   C5_substitution_idempotence.2.1 [("a", PyVal.str "x")] "plain text" (by decide),
   C5_substitution_idempotence.2.2 [("a", PyVal.str "x")] (by decide)⟩
